import Mathlib

/-!
Verification development for the configuration-driven invoice extraction
engine (`unified_parser`).  The Python sources are shallowly embedded:

* Python `float` values are modelled as exact rationals (`ℚ`).  Every number
  the engine manipulates is a finite decimal, so the decimal model agrees
  with the binary one except on exact decimal ties of `%.2f` formatting,
  which none of the statements below touch.
* Python strings are modelled as `String` / `List Char`; `dict` fields are
  `Option String` (a key that is absent, or present with value `None`, is
  `none`).
* A Python function that can raise an uncaught exception is modelled with
  `Except String`; the caught-and-ignored exceptions of the source are
  folded into the ordinary control flow exactly as the `try/except`
  blocks do.
-/

namespace Renta

/-! ## Character and string primitives -/

/-- Characters stripped by Python `str.strip()` (ASCII whitespace plus the
NBSP and narrow-NBSP that appear in the inputs). -/
def pyIsSpace (c : Char) : Bool :=
  c = ' ' || c = '\t' || c = '\n' || c = '\r' ||
  c = '\u000b' || c = '\u000c' || c = '\u00A0' || c = '\u202F'

/-- Python `str.strip()`. -/
def pyStrip (l : List Char) : List Char :=
  ((l.dropWhile pyIsSpace).reverse.dropWhile pyIsSpace).reverse

/-- Python `s.split(sep)` for a single-character separator: keeps empty
pieces, so the result always has one more piece than there are separators. -/
def splitChar (sep : Char) : List Char → List (List Char)
  | [] => [[]]
  | c :: rest =>
    match splitChar sep rest with
    | [] => [[c]]
    | h :: t => if c = sep then [] :: h :: t else (c :: h) :: t

/-- Python `'EUR' in s`-style containment and `str.replace(pat, '')` are
only ever used with the fixed pattern `"EUR"`, so the deletion is embedded
directly: non-overlapping occurrences are removed left to right. -/
def removeEUR : List Char → List Char
  | 'E' :: 'U' :: 'R' :: rest => removeEUR rest
  | c :: rest => c :: removeEUR rest
  | [] => []

/-- ASCII lower-casing, as `str.lower()` acts on the ASCII range. -/
def lowerChar (c : Char) : Char :=
  if 'A' ≤ c && c ≤ 'Z' then Char.ofNat (c.toNat + 32) else c

/-- ASCII upper-casing, as `str.upper()` acts on the ASCII range. -/
def upperChar (c : Char) : Char :=
  if 'a' ≤ c && c ≤ 'z' then Char.ofNat (c.toNat - 32) else c

/-- Substring test (`pat in s` in Python), by scanning every suffix. -/
def isSubstr (pat : List Char) : List Char → Bool
  | [] => pat.isEmpty
  | c :: rest => pat.isPrefixOf (c :: rest) || isSubstr pat rest

/-- Python `str.startswith`. -/
def startsWithL (pat l : List Char) : Bool := pat.isPrefixOf l

/-- Word characters for `\b` boundaries in `re` (modelled on the ASCII
range, which covers every keyword the engine matches). -/
def isWordChar (c : Char) : Bool := c.isAlphanum || c = '_'

/-- Whether `pat` occurs in `l` with non-word characters (or the string
edge) on both sides: `re.search(r'\b pat \b', l)` for a word `pat`. -/
def hasWordOccur (pat : List Char) (l : List Char) : Bool :=
  go none l
where
  go (prev : Option Char) (s : List Char) : Bool :=
    (pat.isPrefixOf s
      && (match prev with | none => true | some p => !isWordChar p)
      && (match s.drop pat.length with | [] => true | n :: _ => !isWordChar n))
    || (match s with | [] => false | c :: rest => go (some c) rest)

/-! ## Digit strings and decimal values -/

/-- Digit value of an ASCII digit character. -/
def digitVal (c : Char) : Nat := c.toNat - 48

/-- The base-10 value of a digit string (how Python reads the digit part of
a numeric literal). -/
def natOfDigits (l : List Char) : Nat := l.foldl (fun acc c => 10 * acc + digitVal c) 0

/-- The ASCII digit for a value below ten. -/
def digitChar (d : Nat) : Char :=
  match d with
  | 0 => '0' | 1 => '1' | 2 => '2' | 3 => '3' | 4 => '4'
  | 5 => '5' | 6 => '6' | 7 => '7' | 8 => '8' | _ => '9'

/-- Fuelled base-10 printer (a fuel of `n + 1` always suffices). -/
def natDigitsAux (fuel : Nat) (n : Nat) : List Char :=
  match fuel with
  | 0 => []
  | f + 1 => if n < 10 then [digitChar n] else natDigitsAux f (n / 10) ++ [digitChar (n % 10)]

/-- Base-10 digit string of a natural number, most significant digit first. -/
def natDigits (n : Nat) : List Char := natDigitsAux (n + 1) n

/-- Python `float(s)` on an already-cleaned literal: optional sign, an
integer part and an optional fractional part, at least one digit overall.
The engine never feeds `float` an exponent, `inf`, `nan` or an underscore
separator, so those forms are not modelled; unparseable input is `none`
(a `ValueError` in the source). -/
def parseUnsigned (l : List Char) : Option ℚ :=
  match splitChar '.' l with
  | [d] => if !d.isEmpty && d.all Char.isDigit then some (natOfDigits d) else none
  | [d1, d2] =>
    if !(d1 ++ d2).isEmpty && d1.all Char.isDigit && d2.all Char.isDigit then
      some ((natOfDigits d1 : ℚ) + natOfDigits d2 / 10 ^ d2.length)
    else none
  | _ => none

/-- Python `float(s)` (see `parseUnsigned`); strips outer whitespace and a
single leading sign. -/
def pyFloatL (l : List Char) : Option ℚ :=
  match pyStrip l with
  | [] => none
  | c :: rest =>
    if c = '-' then (parseUnsigned rest).map (fun q => -q)
    else if c = '+' then parseUnsigned rest
    else parseUnsigned (c :: rest)

/-- Python `float(s)` on a `String`. -/
def pyFloat (s : String) : Option ℚ := pyFloatL s.data

/-- The least number of decimal digits needed after the point to write `q`
exactly, when `q` is a finite decimal (every Python float the engine
produces is one, in the exact-rational model). -/
def decExponent (q : ℚ) : Option Nat :=
  (List.range (q.den + 1)).find? (fun k => q.den ∣ 10 ^ k)

/-- Python `str(float)` for finite decimals: minimal digits, at least one
digit after the point, `-` sign for negative values.  (Scientific notation
for very large or very small magnitudes is outside the values the engine
prints and is not modelled.) -/
def pyStrFloatL (q : ℚ) : List Char :=
  match decExponent q with
  | some k =>
    let n := q.num.natAbs * 10 ^ k / q.den
    let frac := if k = 0 then ['0']
      else List.replicate (k - (natDigits (n % 10 ^ k)).length) '0' ++ natDigits (n % 10 ^ k)
    (if q < 0 then ['-'] else []) ++ natDigits (n / 10 ^ k) ++ '.' :: frac
  | none => ['0']

/-- Python `str(float)` as a `String`. -/
def pyStrFloat (q : ℚ) : String := String.mk (pyStrFloatL q)

/-- Rounding half to even, the rounding used by Python string formatting in
the exact-decimal model. -/
def roundHalfEven (x : ℚ) : ℤ :=
  let f := ⌊x⌋
  if x - f < 1 / 2 then f
  else if 1 / 2 < x - f then f + 1
  else if Even f then f else f + 1

/-- Python `f"{x:.2f}"` in the exact-decimal model: round to two decimal
places (half to even) and print with exactly two fractional digits,
keeping the sign of the argument (so `-0.004` prints as `-0.00`). -/
def format2fL (q : ℚ) : List Char :=
  let a := (roundHalfEven (q * 100)).natAbs
  let fd := natDigits (a % 100)
  (if q < 0 then ['-'] else []) ++
    natDigits (a / 100) ++ '.' :: (List.replicate (2 - fd.length) '0' ++ fd)

/-- Python `f"{x:.2f}"` as a `String`. -/
def format2f (q : ℚ) : String := String.mk (format2fL q)

/-- Python `str(int(x))` for an integral float. -/
def intStr (z : ℤ) : String :=
  String.mk ((if z < 0 then ['-'] else []) ++ natDigits z.natAbs)

/-- Python truthiness of an optional string (`None` and `""` are falsy). -/
def truthy : Option String → Bool
  | none => false
  | some s => !s.isEmpty

/-! ## The Number Normalizer: `parse_number` (unified_parser/utils.py) -/

/-- The invisible formatting characters removed by `parse_number`
(`re.sub` of the class with NBSP, narrow NBSP and zero-width space). -/
def isInvisible (c : Char) : Bool := c = '\u00A0' || c = '\u202F' || c = '\u200B'

/-- Whether the cleaned string already is a plain number, i.e. the
`re.match` of an optional minus, digits, and an optional dot-fraction on
the whole string succeeds. -/
def cleanNumberMatch (l : List Char) : Bool :=
  match splitChar '.' (if l.head? = some '-' then l.tail else l) with
  | [d] => !d.isEmpty && d.all Char.isDigit
  | [d1, d2] => !d1.isEmpty && d1.all Char.isDigit && !d2.isEmpty && d2.all Char.isDigit
  | _ => false

/-- Currency-symbol removal of `parse_number`: delete every `€`, then every
`EUR` substring, then `$` and `£`, then strip outer whitespace. -/
def stripCurrency (l : List Char) : List Char :=
  pyStrip (((removeEUR (l.filter (fun c => c ≠ '€'))).filter (fun c => c ≠ '$')).filter
    (fun c => c ≠ '£'))

/-- Comma-to-dot substitution (`s.replace(',', '.')`). -/
def commaToDot (c : Char) : Char := if c = ',' then '.' else c

/-- Whether the right-most of `,` and `.` in the string is the comma
(`s.rfind(',') > s.rfind('.')`, evaluated when both occur). -/
def lastSepIsComma (l : List Char) : Bool :=
  match l.reverse.find? (fun c => c = ',' || c = '.') with
  | some c => decide (c = ',')
  | none => false

/-- Embedding of `parse_number`: total, returns `0` for unparseable input.
Mirrors the source step by step — currency strip, invisible-character
removal, the already-clean shortcut, the two-separator disambiguation, the
comma-only branch keyed on the length of the part after the comma, the
final sweep keeping only digits, dot and minus, and the large-magnitude
guard that re-derives the value from the original string. -/
def parseNumberL (s0 : List Char) : ℚ :=
  if s0.isEmpty then 0 else
  let s2 := (stripCurrency s0).filter (fun c => !isInvisible c)
  if cleanNumberMatch s2 then (pyFloatL s2).getD 0
  else
    let s3 :=
      if s2.contains ',' && s2.contains '.' then
        if lastSepIsComma s2 then (s2.filter (fun c => c ≠ '.')).map commaToDot
        else s2.filter (fun c => c ≠ ',')
      else if s2.contains ',' then
        match splitChar ',' s2 with
        | [_, p1] =>
          if p1.length ≠ 3 then s2.map commaToDot else s2.filter (fun c => c ≠ ',')
        | _ => s2.filter (fun c => c ≠ ',')
      else s2
    let s4 := s3.filter (fun c => c.isDigit || c = '.' || c = '-')
    match pyFloatL s4 with
    | none => 0
    | some val =>
      if 100000 < val && s0.contains ',' && !s0.contains '.' then
        match splitChar ',' s0 with
        | [_, p1] =>
          if (p1.filter Char.isDigit).length = 2 then
            match pyFloatL (((s0.filter (fun c => c ≠ ' ')).map commaToDot).filter
                (fun c => c.isDigit || c = '.' || c = '-')) with
            | some v2 => v2
            | none => val
          else val
        | _ => val
      else val

/-- Embedding of `parse_number` on a `String`. -/
def parse_number (s : String) : ℚ := parseNumberL s.data

/-! ## The Date Normalizer: `normalize_date` (unified_parser/utils.py) -/

/-- English month table, in source insertion order. -/
def enMonths : List (String × String) :=
  [("january", "01"), ("february", "02"), ("march", "03"), ("april", "04"),
   ("may", "05"), ("june", "06"), ("july", "07"), ("august", "08"),
   ("september", "09"), ("october", "10"), ("november", "11"), ("december", "12"),
   ("jan", "01"), ("feb", "02"), ("mar", "03"), ("apr", "04"), ("jun", "06"),
   ("jul", "07"), ("aug", "08"), ("sep", "09"), ("oct", "10"), ("nov", "11"),
   ("dec", "12")]

/-- Dutch month table; the duplicate `oktober` key of the source collapses
to the first insertion position. -/
def nlMonths : List (String × String) :=
  [("januari", "01"), ("februari", "02"), ("maart", "03"), ("april", "04"),
   ("mei", "05"), ("juni", "06"), ("juli", "07"), ("augustus", "08"),
   ("september", "09"), ("oktober", "10"), ("november", "11"), ("december", "12"),
   ("okt", "10")]

/-- French month table, in source insertion order. -/
def frMonths : List (String × String) :=
  [("janvier", "01"), ("février", "02"), ("mars", "03"), ("avril", "04"),
   ("mai", "05"), ("juin", "06"), ("juillet", "07"), ("août", "08"),
   ("septembre", "09"), ("octobre", "10"), ("novembre", "11"), ("décembre", "12"),
   ("aout", "08"), ("fevrier", "02"), ("decembre", "12")]

/-- Python `dict` insertion of one key (overwrite in place or append). -/
def dictInsert (d : List (String × String)) (kv : String × String) : List (String × String) :=
  if d.any (fun p => p.1 = kv.1) then
    d.map (fun p => if p.1 = kv.1 then (p.1, kv.2) else p)
  else d ++ [kv]

/-- Python `dict.update`, preserving insertion order. -/
def dictUpdate (d upd : List (String × String)) : List (String × String) :=
  upd.foldl dictInsert d

/-- The merged cross-language fallback table (`all_months`). -/
def allMonths : List (String × String) :=
  dictUpdate (dictUpdate (dictUpdate [] enMonths) nlMonths) frMonths

/-- The per-call month map: the language table (or the fallback when the
language is unknown), updated with the fallback. -/
def monthMap (language : String) : List (String × String) :=
  dictUpdate
    (if language = "en" then enMonths
     else if language = "nl" then nlMonths
     else if language = "fr" then frMonths
     else allMonths)
    allMonths

/-- Replace all non-overlapping occurrences of `p` by `r`, left to right
(`str.replace`); fuelled by the input length, which always suffices for a
non-empty pattern. -/
def replaceSubAux (p r : List Char) (fuel : Nat) (l : List Char) : List Char :=
  match fuel with
  | 0 => l
  | f + 1 =>
    match l with
    | [] => []
    | c :: rest =>
      if !p.isEmpty && p.isPrefixOf (c :: rest) then
        r ++ replaceSubAux p r f ((c :: rest).drop p.length)
      else c :: replaceSubAux p r f rest

/-- Python `str.replace(p, r)` for a non-empty pattern. -/
def replaceSub (p r l : List Char) : List Char := replaceSubAux p r l.length l

/-- The month-replacement loop: the first table entry whose name occurs in
the string is substituted (all occurrences), and the loop breaks. -/
def replaceFirstMonth : List (String × String) → List Char → List Char
  | [], l => l
  | (name, num) :: rest, l =>
    if isSubstr name.data l then replaceSub name.data num.data l
    else replaceFirstMonth rest l

/-- Collapse runs of spaces (`re.sub(r'\s+', ' ', s)`; at this point in
`normalize_date` the only whitespace character left is the plain space). -/
def collapseSpacesAux : List Char → Bool → List Char
  | [], _ => []
  | c :: rest, prevSpace =>
    if c = ' ' then
      if prevSpace then collapseSpacesAux rest true
      else ' ' :: collapseSpacesAux rest true
    else c :: collapseSpacesAux rest false

/-- Collapse runs of spaces into a single space. -/
def collapseSpaces (l : List Char) : List Char := collapseSpacesAux l false

/-- The separators of `re.split(r'[\-\/\.\s]', s)` (only the plain space
can remain of the whitespace class here). -/
def isDateSep (c : Char) : Bool := c = '-' || c = '/' || c = '.' || c = ' '

/-- Splitting on the date separators, keeping empty pieces as `re.split`
does for consecutive separators. -/
def splitSeps : List Char → List (List Char)
  | [] => [[]]
  | c :: rest =>
    match splitSeps rest with
    | [] => [[c]]
    | h :: t => if isDateSep c then [] :: h :: t else (c :: h) :: t

/-- Python `int(s)` on the digit-only pieces produced by the date split
(`None` models the `ValueError` for an empty piece). -/
def pyIntNat (l : List Char) : Option Nat :=
  if !l.isEmpty && l.all Char.isDigit then some (natOfDigits l) else none

/-- Python `str.zfill(2)`. -/
def zfill2 (l : List Char) : List Char :=
  List.replicate (2 - l.length) '0' ++ l

/-- Embedding of `normalize_date`: lower-case and strip, substitute the
first matching month name, keep only digits and separators, collapse
spaces, split into parts, and assemble the ISO string by the year-position
heuristics.  `Except.error` models an uncaught Python exception: the
`int(y)` call of the day-month-year branch sits outside the `try` block of
the source and raises on an empty year part. -/
def normalize_date (date0 : String) (language : String) : Except String (Option String) :=
  if date0.isEmpty then .ok none else
  let d1 := replaceFirstMonth (monthMap language) (pyStrip (date0.data.map lowerChar))
  let d2 := d1.map (fun c => if c.isDigit || c = '-' || c = '/' || c = '.' then c else ' ')
  let d3 := pyStrip (collapseSpaces d2)
  match splitSeps d3 with
  | [p0, p1, p2] =>
    if p0.length = 4 then
      .ok (some (String.mk (p0 ++ '-' :: (zfill2 p1 ++ '-' :: zfill2 p2))))
    else if p2.length = 4 then
      .ok (some (String.mk (p2 ++ '-' :: (zfill2 p1 ++ '-' :: zfill2 p0))))
    else
      match pyIntNat p2 with
      | none => .error "ValueError: invalid literal for int()"
      | some y =>
        let yStr := if y < 100 then '2' :: '0' :: p2 else p2
        .ok (some (String.mk (yStr ++ '-' :: (zfill2 p1 ++ '-' :: zfill2 p0))))
  | _ => .ok none

/-! ## Data model of the engine (unified_parser/engine.py, schemas.py) -/

/-- A raw row / line item: a mapping from the semantic column names to
string values.  A key that is absent, or present with Python `None`, is
`none` (the strategies either skip unmatched groups or store strings). -/
structure Item where
  sku : Option String := none
  description : Option String := none
  quantity : Option String := none
  unit_price : Option String := none
  total : Option String := none
  position : Option String := none
deriving DecidableEq, Repr

/-- Vendor part of the parser configuration. -/
structure VendorConfig where
  name : String
  currency : String := "EUR"
  language : String := "fr"
deriving DecidableEq, Repr

/-- The slice of `ParserConfig` consumed by the embedded functions. -/
structure ParserConfig where
  vendor : VendorConfig
  preprocess : Option String := none
deriving DecidableEq, Repr

/-- The totals mapping, restricted to the keys the embedded functions read
or write. -/
structure TotalsMap where
  subtotal : Option String := none
  total : Option String := none
  shipping_fee : Option String := none
  gross_amount : Option String := none
  discount_amount : Option String := none
deriving DecidableEq, Repr

/-- Python `float` of a `dict.get(key, 0)` value: a missing key is the
number `0`, an unparseable string is `none` (a raised `ValueError`). -/
def pyFloatD (o : Option String) : Option ℚ :=
  match o with
  | none => some 0
  | some s => pyFloat s

/-! ## Row pipeline: `_process_item` -/

/-- Keywords of the loose (substring) shipping check. -/
def freightKeywords : List String :=
  ["shipping", "freight", "fracht", "delivery", "versand", "szállítás"]

/-- Keywords of the footer/summary row filter. -/
def footerKeywords : List String :=
  ["gesamt", "total", "subtotal", "sum", "tva", "tax", "net", "brut"]

/-- Patterns of the metadata-only row filter. -/
def metadataPatterns : List String :=
  ["expiry date:", "black friday", "deal of the month", "mega deal", "sample points",
   "(expires:"]

/-- The lazy group of `re.match(r'^\[(.+?)\]', description)`: characters up
to the first `]`, failing on a newline (the dot does not match one). -/
def takeUntilClose : List Char → Option (List Char)
  | [] => none
  | ']' :: _ => some []
  | '\n' :: _ => none
  | c :: rest => (takeUntilClose rest).map (fun l => c :: l)

/-- SKU back-fill source: the bracketed token at the start of the
description, with the group required to be non-empty (`.+?`). -/
def skuFromBracket : List Char → Option (List Char)
  | '[' :: c0 :: rest => if c0 = '\n' then none else (takeUntilClose rest).map (fun l => c0 :: l)
  | _ => none

/-- The shipping/freight classification of `_process_item`, applied to the
item after SKU back-fill: an exact upper-cased SKU marker, a word-boundary
match of a short keyword in the description, a substring match of a long
keyword in the description, or a substring match in the position field. -/
def isShippingItem (item : Item) : Bool :=
  let descLower := (item.description.getD "").data.map lowerChar
  let sku := String.mk ((item.sku.getD "").data.map upperChar)
  if sku = "DELIVERY" || sku = "SHIPPING" || sku = "FREIGHT" || sku = "VERSAND" then true
  else if hasWordOccur "ups".data descLower || hasWordOccur "zone".data descLower then true
  else if freightKeywords.any (fun k => isSubstr k.data descLower) then true
  else if truthy item.position then
    freightKeywords.any (fun k => isSubstr k.data ((item.position.getD "").data.map lowerChar))
  else false

/-- Shipping-fee accumulation: the row's total is added onto the current
fee when it parses to a strictly positive float; a missing total counts as
`0` and a `ValueError` (unparseable total or unparseable current fee) is
swallowed, leaving the fee unchanged. -/
def shipFeeUpdate (fee : Option String) (tot : Option String) : Option String :=
  match pyFloatD tot with
  | none => fee
  | some cost =>
    if 0 < cost then
      match pyFloatD fee with
      | none => fee
      | some cur => some (pyStrFloat (cur + cost))
    else fee

/-- The footer/summary row filter of `_process_item`. -/
def isFooterRow (item : Item) (descLower : List Char) : Bool :=
  (truthy item.position &&
    footerKeywords.any (fun k => isSubstr k.data ((item.position.getD "").data.map lowerChar)))
  ||
  (footerKeywords.any (fun k => isSubstr k.data descLower) &&
    ((pyStrip descLower).length < 50 &&
     footerKeywords.any (fun k => startsWithL k.data (pyStrip descLower))))

/-- The metadata-only row filter of `_process_item`. -/
def isMetadataOnly (descLower : List Char) : Bool :=
  metadataPatterns.any (fun p => isSubstr p.data descLower) &&
  metadataPatterns.any (fun p => startsWithL p.data (pyStrip descLower))

/-- The per-line description cleaning: lines whose lower-cased stripped
text contains a metadata pattern are dropped, the rest are stripped and
joined with single spaces; an empty remainder vetoes the row. -/
def cleanDescLines (description : List Char) : Option (List Char) :=
  let cleaned := ((splitChar '\n' description).filter (fun line =>
      !(metadataPatterns.any (fun p => isSubstr p.data (line.map lowerChar))))).map pyStrip
  if cleaned.isEmpty then none else some (List.intercalate [' '] cleaned)

/-- The missing-total computation: `total = f"{qty*price:.2f}"` when both
factors are present and parse, with the Yamamoto credit-note override. -/
def computeTotal (cfg : ParserConfig) (item : Item) : Item :=
  if item.total = none && !(item.quantity = none) && !(item.unit_price = none) then
    if cfg.vendor.name = "Yamamoto Nutrition" then { item with total := some "0" }
    else
      match pyFloat (item.quantity.getD ""), pyFloat (item.unit_price.getD "") with
      | some q, some p => { item with total := some (format2f (q * p)) }
      | _, _ => item
  else item

/-- Dict merge `{**pending, **item}`: keys of `item` win. -/
def mergeItems (pending item : Item) : Item where
  sku := item.sku <|> pending.sku
  description := item.description <|> pending.description
  quantity := item.quantity <|> pending.quantity
  unit_price := item.unit_price <|> pending.unit_price
  total := item.total <|> pending.total
  position := item.position <|> pending.position

/-- The Shaker Store multi-line prelude of `_process_item`.  `Sum.inl p`
is an early `return None` with `p` the new pending cache; `Sum.inr` hands
the (possibly merged) item on to the main body. -/
def shakerStep (cfg : ParserConfig) (pending : Option Item) (item : Item) :
    (Option Item) ⊕ (Option Item × Item) :=
  if cfg.vendor.name = "Shaker Store" then
    if truthy item.sku && truthy item.description && !truthy item.total then
      .inl (some item)
    else if truthy item.total && !truthy item.sku && !truthy item.description then
      match pending with
      | some p => .inr (none, mergeItems p item)
      | none => .inl none
    else .inr (pending, item)
  else .inr (pending, item)

/-- The SKU back-fill stage of `_process_item`: a missing SKU is taken
from a bracketed token at the start of the description. -/
def backfillSku (item0 : Item) : Item :=
  if !truthy item0.sku && startsWithL ['['] (item0.description.getD "").data then
    match skuFromBracket (item0.description.getD "").data with
    | some sk => { item0 with sku := some (String.mk sk) }
    | none => item0
  else item0

/-- The main body of `_process_item` (everything after the Shaker Store
prelude): basic validation, SKU back-fill, shipping extraction, footer and
metadata filtering, description cleaning and missing-total computation.
Returns the updated `totals.shipping_fee` and the emitted item, if any. -/
def processMain (cfg : ParserConfig) (fee : Option String) (item0 : Item) :
    Option String × Option Item :=
  if !truthy item0.description && !truthy item0.sku && !truthy item0.position then (fee, none)
  else
    let description := item0.description.getD ""
    let descLower := description.data.map lowerChar
    let item := backfillSku item0
    if isShippingItem item then (shipFeeUpdate fee item.total, none)
    else if isFooterRow item descLower then (fee, none)
    else if isMetadataOnly descLower then (fee, none)
    else
      match cleanDescLines description.data with
      | none => (fee, none)
      | some d => (fee, some (computeTotal cfg { item with description := some (String.mk d) }))

/-- The per-document state `_process_item` reads and writes: the pending
multi-line cache and the accumulated shipping fee. -/
structure RowState where
  pending_item : Option Item := none
  shipping_fee : Option String := none
deriving DecidableEq, Repr

/-- Embedding of `_process_item`: one raw row in, an updated state and
zero-or-one emitted canonical item out. -/
def processItem (cfg : ParserConfig) (st : RowState) (item : Item) : RowState × Option Item :=
  match shakerStep cfg st.pending_item item with
  | .inl newPending => ({ st with pending_item := newPending }, none)
  | .inr (newPending, it) =>
    let r := processMain cfg st.shipping_fee it
    (⟨newPending, r.1⟩, r.2)

/-! ## Life Pro negative-row merge: `_apply_lifepro_logic` -/

/-- The merge of a negative follower into the current Life Pro item: the
total becomes the two-decimal formatting of the summed value `nt`, and
when the original quantity parses and is non-zero the unit price is
re-derived as `nt / quantity`; the quantity itself is never written. -/
def lifeproMergeItem (a : Item) (nt : ℚ) : Item :=
  let a1 := { a with total := some (format2f nt) }
  match pyFloatD a.quantity with
  | some q => if q = 0 then a1 else { a1 with unit_price := some (format2f (nt / q)) }
  | none => a1

/-- One pass of the Life Pro merge loop.  A following item whose total
parses negative is folded into the current one via `lifeproMergeItem`;
a `ValueError` on either total skips the merge for this position. -/
def lifeproPass : List Item → List Item
  | [] => []
  | [a] => [a]
  | a :: b :: rest =>
    match pyFloatD b.total with
    | none => a :: lifeproPass (b :: rest)
    | some tb =>
      if tb < 0 then
        match pyFloatD a.total with
        | none => a :: lifeproPass (b :: rest)
        | some ta => lifeproMergeItem a (ta + tb) :: lifeproPass rest
      else a :: lifeproPass (b :: rest)

/-- Embedding of `_apply_lifepro_logic`: the merge pass runs only for the
Life Pro vendor (case-insensitive name comparison). -/
def applyLifeproLogic (cfg : ParserConfig) (items : List Item) : List Item :=
  if String.mk (cfg.vendor.name.data.map lowerChar) = "life pro" then lifeproPass items
  else items

/-! ## Global discount: `_apply_global_discount` -/

/-- Per-item discount application: a truthy unit price is scaled by
`(1 - r)` (integral results print via `str(int(..))`, fractional ones via
`%.2f`), and a truthy total likewise; parse failures leave the remaining
fields untouched, as the `except` of the source does. -/
def discountItem (r : ℚ) (item : Item) : Item :=
  if truthy item.unit_price then
    match pyFloat (item.unit_price.getD "") with
    | none => item
    | some p =>
      let np := p * (1 - r)
      let item1 := { item with
        unit_price := some (if np.den = 1 then intStr np.num else format2f np) }
      if truthy item.total then
        match pyFloat (item.total.getD "") with
        | none => item1
        | some t =>
          let ntv := t * (1 - r)
          { item1 with total := some (if ntv.den = 1 then intStr ntv.num else format2f ntv) }
      else item1
  else item

/-- Embedding of `_apply_global_discount`.  When both header amounts are
truthy the items are scaled by `(1 - discount/gross)`; afterwards the
source reads the undefined local name `subtotal` whenever `totals.total`
is not truthy, which raises a `NameError` — modelled by `Except.error`. -/
def applyGlobalDiscount (totals : TotalsMap) (items : List Item) :
    Except String (List Item × TotalsMap) :=
  if truthy totals.gross_amount && truthy totals.discount_amount then
    let processed :=
      match pyFloat (totals.gross_amount.getD ""), pyFloat (totals.discount_amount.getD "") with
      | some g, some d =>
        if 0 < g && 0 < d then items.map (discountItem (d / g)) else items
      | _, _ => items
    if !truthy totals.total then .error "NameError: name subtotal is not defined"
    else .ok (processed, totals)
  else .ok (items, totals)

/-! ## Character de-duplication repair: `_deduplicate_text` -/

/-- Embedding of `_deduplicate_text` on character lists: a character equal
to its successor swallows it, scanning left to right. -/
def deduplicateTextL : List Char → List Char
  | [] => []
  | [a] => [a]
  | a :: b :: rest =>
    if a = b then a :: deduplicateTextL rest else a :: deduplicateTextL (b :: rest)

/-- Embedding of `_deduplicate_text` on strings. -/
def deduplicate_text (s : String) : String := String.mk (deduplicateTextL s.data)

/-- Writing every character of a string twice (the corruption
`_deduplicate_text` repairs). -/
def doubleChars : List Char → List Char
  | [] => []
  | c :: rest => c :: c :: doubleChars rest

/-! ## Field Extractor: `_extract_header` and `_extract_footer` -/

/-- One configured header or footer field rule. -/
structure FieldRule where
  name : String
  regex : String
  group : Nat := 1
  type : String := "string"
  target : String := "metadata"
deriving DecidableEq, Repr

/-- Namespace maps of the document result (string keys, values that may be
Python `None`, as a stored failed date normalization is). -/
structure DocData where
  vendor : List (String × Option String) := []
  customer : List (String × Option String) := []
  totals : List (String × Option String) := []
  metadata : List (String × Option String) := []
deriving DecidableEq, Repr

/-- Assignment into a string-keyed mapping (`d[k] = v`). -/
def setKey (m : List (String × Option String)) (k : String) (v : Option String) :
    List (String × Option String) :=
  if m.any (fun p => p.1 = k) then m.map (fun p => if p.1 = k then (k, v) else p)
  else m ++ [(k, v)]

/-- Lookup in a string-keyed mapping (`d.get(k)`). -/
def getKey (m : List (String × Option String)) (k : String) : Option (Option String) :=
  (m.find? (fun p => p.1 = k)).map (fun p => p.2)

/-- The target namespace selection `self.data.get(field.target,
self.data['metadata'])`, for the namespaces that are mappings. -/
def storeTarget (d : DocData) (target k : String) (v : Option String) : DocData :=
  if target = "vendor" then { d with vendor := setKey d.vendor k v }
  else if target = "customer" then { d with customer := setKey d.customer k v }
  else if target = "totals" then { d with totals := setKey d.totals k v }
  else { d with metadata := setKey d.metadata k v }

/-- Embedding of `_extract_header`.  The regex search is abstracted by
`matcher`, giving the stripped text of the configured group on success.
A truthy value is stored into the rule's target namespace: `date` values
go through the Date Normalizer (whose uncaught exceptions propagate),
every other type — `number` included — is stored as captured. -/
def extractHeader (lang : String) (matcher : FieldRule → Option String) :
    List FieldRule → DocData → Except String DocData
  | [], d => .ok d
  | f :: rest, d =>
    if truthy (matcher f) then
      if f.type = "date" then
        match normalize_date ((matcher f).getD "") lang with
        | .error e => .error e
        | .ok nd => extractHeader lang matcher rest (storeTarget d f.target f.name nd)
      else extractHeader lang matcher rest (storeTarget d f.target f.name (matcher f))
    else extractHeader lang matcher rest d

/-- Embedding of `_extract_footer`: a truthy captured value lands in
`totals`, with `number` fields stored as `str(parse_number(value))`. -/
def extractFooter (matcher : FieldRule → Option String) :
    List FieldRule → DocData → DocData
  | [], d => d
  | f :: rest, d =>
    if truthy (matcher f) then
      if f.type = "number" then
        extractFooter matcher rest
          { d with totals :=
              setKey d.totals f.name (some (pyStrFloat (parse_number ((matcher f).getD "")))) }
      else extractFooter matcher rest { d with totals := setKey d.totals f.name (matcher f) }
    else extractFooter matcher rest d

/-! ## Validator: `InvoiceValidator._check_mathematics` -/

/-- The per-item mathematical check: when all three numbers parse and the
computed `quantity * unit_price` differs from the declared total by more
than `0.05`, a warning is produced. -/
def itemWarning (idx : Nat) (item : Item) : Option String :=
  match pyFloatD item.quantity, pyFloatD item.unit_price, pyFloatD item.total with
  | some q, some p, some t =>
    if 5 / 100 < |q * p - t| then
      some ("Item " ++ toString (idx + 1) ++ ": Calculated total (" ++ format2f (q * p) ++
        ") differs from declared (" ++ pyStrFloat t ++ ")")
    else none
  | _, _, _ => none

/-- The sum `sum(float(item.get('total', 0)) for item in items)`; `none`
models the `ValueError` aborting the whole document-level block (rational
addition is associative and commutative, so the fold direction does not
change the value). -/
def sumItemTotals : List Item → Option ℚ
  | [] => some 0
  | it :: rest =>
    match pyFloatD it.total, sumItemTotals rest with
    | some t, some s => some (t + s)
    | _, _ => none

/-- Embedding of `_check_mathematics`: the lists of errors and warnings it
appends.  Per-item discrepancies append warnings; the document-level block
appends one hard error exactly when both the plain and the
shipping-inclusive subtotal comparisons are off by more than `0.5`, and a
`ValueError` anywhere in that block silently aborts it. -/
def checkMathematics (items : List Item) (totals : TotalsMap) : List String × List String :=
  if items.isEmpty then ([], []) else
  let warnings := items.enum.filterMap (fun p => itemWarning p.1 p.2)
  let errors :=
    match sumItemTotals items with
    | none => []
    | some s =>
      let declared := if truthy totals.subtotal then totals.subtotal else totals.total
      if truthy declared then
        match pyFloat (declared.getD "") with
        | none => []
        | some ds =>
          match (if truthy totals.shipping_fee then pyFloat (totals.shipping_fee.getD "")
                 else some 0) with
          | none => []
          | some sh =>
            if 1 / 2 < |s - ds| && 1 / 2 < |s + sh - ds| then
              ["Sum of items (" ++ format2f s ++ ") [+ Shipping (" ++ format2f sh ++
                ")] does not match declared subtotal (" ++ format2f ds ++ ")"]
            else []
      else []
  (errors, warnings)

/-! ## Helper lemmas: digit strings and decimal printing -/

theorem digitVal_digitChar {d : ℕ} (h : d < 10) : digitVal (digitChar d) = d := by
  interval_cases d <;> rfl

theorem isDigit_digitChar {d : ℕ} (h : d < 10) : (digitChar d).isDigit = true := by
  interval_cases d <;> rfl

theorem natOfDigits_foldl (l : List Char) (acc : ℕ) :
    l.foldl (fun a c => 10 * a + digitVal c) acc = acc * 10 ^ l.length + natOfDigits l := by
  induction l generalizing acc with
  | nil => simp [natOfDigits]
  | cons c t ih =>
    show t.foldl _ (10 * acc + digitVal c) = _
    rw [ih (10 * acc + digitVal c)]
    have h2 : natOfDigits (c :: t) = t.foldl (fun a c => 10 * a + digitVal c) (digitVal c) := by
      simp [natOfDigits]
    rw [h2, ih (digitVal c)]
    simp [List.length_cons, pow_succ]
    ring

theorem natOfDigits_cons (c : Char) (t : List Char) :
    natOfDigits (c :: t) = digitVal c * 10 ^ t.length + natOfDigits t := by
  have h : natOfDigits (c :: t) = t.foldl (fun a c => 10 * a + digitVal c) (digitVal c) := by
    simp [natOfDigits]
  rw [h, natOfDigits_foldl]

theorem natOfDigits_append (a b : List Char) :
    natOfDigits (a ++ b) = natOfDigits a * 10 ^ b.length + natOfDigits b := by
  have h : natOfDigits (a ++ b) = b.foldl (fun x c => 10 * x + digitVal c) (natOfDigits a) := by
    simp [natOfDigits, List.foldl_append]
  rw [h, natOfDigits_foldl]

theorem natOfDigits_replicate_zero (j : ℕ) (l : List Char) :
    natOfDigits (List.replicate j '0' ++ l) = natOfDigits l := by
  rw [natOfDigits_append]
  have hz : natOfDigits (List.replicate j '0') = 0 := by
    induction j with
    | zero => rfl
    | succ n ih =>
      rw [List.replicate_succ, natOfDigits_cons, ih]
      simp [digitVal]
  rw [hz, zero_mul, zero_add]

theorem natDigitsAux_spec :
    ∀ (fuel n : ℕ), n < 10 ^ fuel → 1 ≤ fuel →
      natOfDigits (natDigitsAux fuel n) = n ∧
      (∀ c ∈ natDigitsAux fuel n, c.isDigit = true) ∧ natDigitsAux fuel n ≠ []
  | 0, _, _, hf => by omega
  | f + 1, n, hn, _ => by
    rw [natDigitsAux]
    by_cases h10 : n < 10
    · simp only [h10, if_true]
      refine ⟨?_, ?_, by simp⟩
      · rw [natOfDigits_cons]
        simp [natOfDigits, digitVal_digitChar h10]
      · intro c hc
        simp only [List.mem_singleton] at hc
        exact hc ▸ isDigit_digitChar h10
    · have hf1 : 1 ≤ f := by
        by_contra hc
        have : f = 0 := by omega
        subst this
        simp at hn
        omega
      have hdiv : n / 10 < 10 ^ f := by
        rw [Nat.div_lt_iff_lt_mul (by norm_num)]
        calc n < 10 ^ (f + 1) := hn
          _ = 10 ^ f * 10 := by rw [pow_succ]
      obtain ⟨ih1, ih2, ih3⟩ := natDigitsAux_spec f (n / 10) hdiv hf1
      simp only [h10, if_false]
      refine ⟨?_, ?_, by simp⟩
      · rw [natOfDigits_append, ih1]
        have h : natOfDigits [digitChar (n % 10)] = n % 10 := by
          rw [natOfDigits_cons]
          simp [natOfDigits, digitVal_digitChar (Nat.mod_lt n (by norm_num))]
        rw [h]
        simp only [List.length_singleton, pow_one]
        omega
      · intro c hc
        rcases List.mem_append.mp hc with hc | hc
        · exact ih2 c hc
        · simp only [List.mem_singleton] at hc
          exact hc ▸ isDigit_digitChar (Nat.mod_lt n (by norm_num))

theorem natOfDigits_natDigits (n : ℕ) : natOfDigits (natDigits n) = n :=
  (natDigitsAux_spec (n + 1) n
    (lt_of_lt_of_le (Nat.lt_pow_self (by norm_num) n)
      (Nat.pow_le_pow_right (by norm_num) (Nat.le_succ n))) (by omega)).1

theorem natDigits_all_digit (n : ℕ) : ∀ c ∈ natDigits n, c.isDigit = true :=
  (natDigitsAux_spec (n + 1) n
    (lt_of_lt_of_le (Nat.lt_pow_self (by norm_num) n)
      (Nat.pow_le_pow_right (by norm_num) (Nat.le_succ n))) (by omega)).2.1

theorem natDigits_ne_nil (n : ℕ) : natDigits n ≠ [] :=
  (natDigitsAux_spec (n + 1) n
    (lt_of_lt_of_le (Nat.lt_pow_self (by norm_num) n)
      (Nat.pow_le_pow_right (by norm_num) (Nat.le_succ n))) (by omega)).2.2

theorem natDigitsAux_length :
    ∀ (fuel n k : ℕ), n < 10 ^ k → 1 ≤ k → (natDigitsAux fuel n).length ≤ k
  | 0, _, k, _, _ => by simp [natDigitsAux]
  | f + 1, n, k, hn, hk => by
    rw [natDigitsAux]
    by_cases h10 : n < 10
    · simpa [h10] using hk
    · have hk2 : 2 ≤ k := by
        by_contra hc
        have : k = 1 := by omega
        subst this
        simp at hn
        omega
      have hdiv : n / 10 < 10 ^ (k - 1) := by
        rw [Nat.div_lt_iff_lt_mul (by norm_num)]
        calc n < 10 ^ k := hn
          _ = 10 ^ (k - 1) * 10 := by
            rw [← pow_succ]
            congr 1
            omega
      have := natDigitsAux_length f (n / 10) (k - 1) hdiv (by omega)
      simp only [h10, if_false, List.length_append, List.length_singleton]
      omega

theorem natDigits_length_le {n k : ℕ} (h : n < 10 ^ k) (hk : 1 ≤ k) :
    (natDigits n).length ≤ k :=
  natDigitsAux_length (n + 1) n k h hk

/-! ## Helper lemmas: splitting, stripping and float parsing -/

theorem splitChar_ne_nil (sep : Char) : ∀ l : List Char, splitChar sep l ≠ []
  | [] => by simp [splitChar]
  | c :: rest => by
    rw [splitChar]
    rcases h : splitChar sep rest with _ | ⟨x, t⟩
    · simp
    · by_cases hc : c = sep <;> simp [hc]

theorem splitChar_of_not_mem {sep : Char} : ∀ {l : List Char}, sep ∉ l → splitChar sep l = [l]
  | [], _ => rfl
  | c :: rest, h => by
    have hc : ¬c = sep := fun hh => h (hh ▸ List.mem_cons_self c rest)
    have ht : sep ∉ rest := fun hh => h (List.mem_cons_of_mem c hh)
    rw [splitChar, splitChar_of_not_mem ht]
    simp [hc]

theorem splitChar_append {sep : Char} :
    ∀ {a : List Char} (b : List Char), sep ∉ a →
      splitChar sep (a ++ sep :: b) = a :: splitChar sep b
  | [], b, _ => by
    rw [List.nil_append, splitChar]
    rcases h : splitChar sep b with _ | ⟨x, t⟩
    · exact absurd h (splitChar_ne_nil sep b)
    · simp
  | c :: a', b, h => by
    have hc : ¬c = sep := fun hh => h (hh ▸ List.mem_cons_self c a')
    have ht : sep ∉ a' := fun hh => h (List.mem_cons_of_mem c hh)
    rw [List.cons_append, splitChar, splitChar_append b ht]
    simp [hc]

theorem dropWhile_of_all_false {p : Char → Bool} :
    ∀ {l : List Char}, (∀ c ∈ l, p c = false) → l.dropWhile p = l
  | [], _ => rfl
  | c :: rest, h => by
    simp [List.dropWhile_cons, h c (List.mem_cons_self c rest)]

theorem pyStrip_eq_self {l : List Char} (h : ∀ c ∈ l, pyIsSpace c = false) : pyStrip l = l := by
  unfold pyStrip
  rw [dropWhile_of_all_false h]
  rw [dropWhile_of_all_false (fun c hc => h c (List.mem_reverse.mp hc))]
  exact List.reverse_reverse l

theorem isDigit_not_dot {c : Char} (h : c.isDigit = true) : c ≠ '.' := by
  intro hc
  rw [hc] at h
  simp [Char.isDigit] at h

theorem isDigit_not_space {c : Char} (h : c.isDigit = true) : pyIsSpace c = false := by
  by_contra hc
  have hs : pyIsSpace c = true := by
    revert hc
    cases pyIsSpace c <;> simp
  simp only [pyIsSpace, Bool.or_eq_true, decide_eq_true_eq] at hs
  rcases hs with ((((((h1 | h1) | h1) | h1) | h1) | h1) | h1) | h1 <;>
    (subst h1; exact absurd h (by decide))

theorem parseUnsigned_digits {d : List Char} (h1 : d ≠ [])
    (h2 : ∀ c ∈ d, c.isDigit = true) : parseUnsigned d = some (natOfDigits d) := by
  have hnd : '.' ∉ d := fun hm => isDigit_not_dot (h2 _ hm) rfl
  have hall : d.all Char.isDigit = true := List.all_eq_true.mpr h2
  rw [parseUnsigned, splitChar_of_not_mem hnd]
  simp [h1, hall]

theorem parseUnsigned_point {a b : List Char} (ha : a ≠ [])
    (h2 : ∀ c ∈ a, c.isDigit = true) (h3 : ∀ c ∈ b, c.isDigit = true) :
    parseUnsigned (a ++ '.' :: b) =
      some ((natOfDigits a : ℚ) + natOfDigits b / 10 ^ b.length) := by
  have hna : '.' ∉ a := fun hm => isDigit_not_dot (h2 _ hm) rfl
  have hnb : '.' ∉ b := fun hm => isDigit_not_dot (h3 _ hm) rfl
  have ha2 : a.all Char.isDigit = true := List.all_eq_true.mpr h2
  have hb2 : b.all Char.isDigit = true := List.all_eq_true.mpr h3
  rw [parseUnsigned, splitChar_append b hna, splitChar_of_not_mem hnb]
  simp [ha, ha2, hb2]

theorem pyFloatL_digitStart {c : Char} {rest : List Char} (hc : c.isDigit = true)
    (hns : ∀ x ∈ c :: rest, pyIsSpace x = false) :
    pyFloatL (c :: rest) = parseUnsigned (c :: rest) := by
  have hminus : ¬c = '-' := by
    intro h
    rw [h] at hc
    simp [Char.isDigit] at hc
  have hplus : ¬c = '+' := by
    intro h
    rw [h] at hc
    simp [Char.isDigit] at hc
  rw [pyFloatL, pyStrip_eq_self hns]
  simp [hminus, hplus]

theorem pyFloatL_negStart {rest : List Char}
    (hns : ∀ x ∈ '-' :: rest, pyIsSpace x = false) :
    pyFloatL ('-' :: rest) = (parseUnsigned rest).map (fun q => -q) := by
  rw [pyFloatL, pyStrip_eq_self hns]
  simp

/-! ## Helper lemmas: the decimal printer parses back to its argument -/

theorem decExponent_dvd {q : ℚ} {k : ℕ} (h : decExponent q = some k) : q.den ∣ 10 ^ k := by
  have := List.find?_some h
  simpa using this

theorem decExponent_isSome_of_dvd {q : ℚ} {j : ℕ} (h : q.den ∣ 10 ^ j) :
    ∃ k, decExponent q = some k := by
  have h10 : (10 : ℕ) ^ j = 2 ^ j * 5 ^ j := by rw [← Nat.mul_pow]
  rw [h10] at h
  obtain ⟨d2, d5, h2, h5, heq⟩ := exists_dvd_and_dvd_of_dvd_mul h
  obtain ⟨a, _, rfl⟩ := (Nat.dvd_prime_pow Nat.prime_two).mp h2
  obtain ⟨b, _, rfl⟩ := (Nat.dvd_prime_pow (by norm_num)).mp h5
  have hpos : 0 < q.den := q.den_pos
  have ha : a ≤ q.den := by
    have h2d : 2 ^ a ∣ q.den := heq ▸ Dvd.intro _ rfl
    have hle := Nat.le_of_dvd hpos h2d
    have h2a : a < 2 ^ a := Nat.lt_two_pow a
    omega
  have hb : b ≤ q.den := by
    have h5d : 5 ^ b ∣ q.den := heq ▸ Dvd.intro_left _ rfl
    have hle := Nat.le_of_dvd hpos h5d
    have h5b : b < 5 ^ b := Nat.lt_pow_self (by norm_num) b
    omega
  have hK : q.den ∣ 10 ^ max a b := by
    have h10 : (10 : ℕ) ^ max a b = 2 ^ max a b * 5 ^ max a b := by rw [← Nat.mul_pow]
    rw [heq, h10]
    exact Nat.mul_dvd_mul (pow_dvd_pow 2 (le_max_left a b)) (pow_dvd_pow 5 (le_max_right a b))
  have hsome : (decExponent q).isSome := by
    rw [decExponent, List.find?_isSome]
    refine ⟨max a b, List.mem_range.mpr (by omega), by simpa using hK⟩
  obtain ⟨k, hk⟩ := Option.isSome_iff_exists.mp hsome
  exact ⟨k, hk⟩

theorem abs_eq_natAbs_div (q : ℚ) : |q| = (q.num.natAbs : ℚ) / q.den := by
  have hd : (0 : ℚ) < (q.den : ℚ) := by exact_mod_cast q.den_pos
  have h1 : |q| = |(q.num : ℚ) / (q.den : ℚ)| := by rw [Rat.num_div_den]
  rw [h1, abs_div, abs_of_pos hd, Int.cast_natAbs, Int.cast_abs]

theorem cast_scaled_div_eq_abs {q : ℚ} {k : ℕ} (hdvd : q.den ∣ 10 ^ k) :
    ((q.num.natAbs * 10 ^ k / q.den : ℕ) : ℚ) / 10 ^ k = |q| := by
  have hd : q.den ∣ q.num.natAbs * 10 ^ k := Dvd.dvd.mul_left hdvd _
  have hexact : q.num.natAbs * 10 ^ k / q.den * q.den = q.num.natAbs * 10 ^ k :=
    Nat.div_mul_cancel hd
  have hcast : ((q.num.natAbs * 10 ^ k / q.den : ℕ) : ℚ) * q.den =
      (q.num.natAbs : ℚ) * 10 ^ k := by
    exact_mod_cast congrArg (fun n : ℕ => (n : ℚ)) hexact
  rw [abs_eq_natAbs_div]
  have hdq : (0 : ℚ) < q.den := by
    have : (0 : ℕ) < q.den := q.den_pos
    exact_mod_cast this
  rw [div_eq_div_iff (by positivity) hdq.ne']
  linarith [hcast]

theorem pyStrFloatL_parses {q : ℚ} {k : ℕ} (h : decExponent q = some k) :
    pyFloatL (pyStrFloatL q) = some q := by
  have hdvd := decExponent_dvd h
  set N := q.num.natAbs * 10 ^ k / q.den with hNdef
  set frac : List Char :=
    (if k = 0 then ['0']
     else List.replicate (k - (natDigits (N % 10 ^ k)).length) '0' ++ natDigits (N % 10 ^ k))
    with hfrac
  have hprint : pyStrFloatL q =
      (if q < 0 then ['-'] else []) ++ (natDigits (N / 10 ^ k) ++ '.' :: frac) := by
    rw [pyStrFloatL, h, ← List.append_assoc]
  have hfd : ∀ c ∈ frac, c.isDigit = true := by
    rw [hfrac]
    by_cases hk : k = 0
    · intro c hc
      simp only [hk, if_true, List.mem_singleton] at hc
      subst hc
      decide
    · simp only [hk, if_false]
      intro c hc
      rcases List.mem_append.mp hc with hc | hc
      · have := List.eq_of_mem_replicate hc
        subst this
        decide
      · exact natDigits_all_digit _ c hc
  have hparse : parseUnsigned (natDigits (N / 10 ^ k) ++ '.' :: frac) =
      some ((natOfDigits (natDigits (N / 10 ^ k)) : ℚ)
        + natOfDigits frac / 10 ^ frac.length) :=
    parseUnsigned_point (natDigits_ne_nil _) (natDigits_all_digit _) hfd
  have hval : (natOfDigits (natDigits (N / 10 ^ k)) : ℚ)
      + natOfDigits frac / 10 ^ frac.length = (N : ℚ) / 10 ^ k := by
    rw [natOfDigits_natDigits]
    by_cases hk : k = 0
    · subst hk
      rw [hfrac]
      norm_num [natOfDigits, digitVal]
      decide
    · have hk1 : 1 ≤ k := by omega
      have hM : N % 10 ^ k < 10 ^ k := Nat.mod_lt _ (by positivity)
      have hL : (natDigits (N % 10 ^ k)).length ≤ k := natDigits_length_le hM hk1
      rw [hfrac]
      simp only [hk, if_false]
      rw [natOfDigits_replicate_zero, natOfDigits_natDigits]
      have hlen : (List.replicate (k - (natDigits (N % 10 ^ k)).length) '0'
          ++ natDigits (N % 10 ^ k)).length = k := by
        simp only [List.length_append, List.length_replicate]
        omega
      rw [hlen]
      have hNd : 10 ^ k * (N / 10 ^ k) + N % 10 ^ k = N := Nat.div_add_mod N (10 ^ k)
      have hcast : (10 : ℚ) ^ k * ((N / 10 ^ k : ℕ) : ℚ) + ((N % 10 ^ k : ℕ) : ℚ) = (N : ℚ) := by
        exact_mod_cast congrArg (fun n : ℕ => (n : ℚ)) hNd
      have h10 : ((10 : ℚ) ^ k) ≠ 0 := by positivity
      field_simp
      linarith [hcast]
  have hns_body : ∀ x ∈ natDigits (N / 10 ^ k) ++ '.' :: frac, pyIsSpace x = false := by
    intro x hx
    rcases List.mem_append.mp hx with hx | hx
    · exact isDigit_not_space (natDigits_all_digit _ x hx)
    · rcases List.mem_cons.mp hx with hx | hx
      · subst hx
        decide
      · exact isDigit_not_space (hfd x hx)
  rw [hprint]
  by_cases hq : q < 0
  · simp only [hq, if_true, List.singleton_append]
    have hns : ∀ x ∈ '-' :: (natDigits (N / 10 ^ k) ++ '.' :: frac), pyIsSpace x = false := by
      intro x hx
      rcases List.mem_cons.mp hx with hx | hx
      · subst hx
        decide
      · exact hns_body x hx
    rw [pyFloatL_negStart hns, hparse]
    simp only [Option.map_some']
    congr 1
    rw [hval, cast_scaled_div_eq_abs hdvd, abs_of_neg hq, neg_neg]
  · simp only [hq, if_false, List.nil_append]
    obtain ⟨c, cs, hcons⟩ := List.exists_cons_of_ne_nil (natDigits_ne_nil (N / 10 ^ k))
    have hcd : c.isDigit = true :=
      natDigits_all_digit _ c (hcons ▸ List.mem_cons_self c cs)
    rw [hcons, List.cons_append]
    rw [pyFloatL_digitStart hcd (by
      intro x hx
      apply hns_body
      rw [hcons, List.cons_append]
      exact hx)]
    rw [← List.cons_append, ← hcons, hparse]
    congr 1
    rw [hval, cast_scaled_div_eq_abs hdvd, abs_of_nonneg (le_of_not_lt hq)]

/-- Round trip: the printed form of any finite-decimal float parses back to
the same value. -/
theorem pyFloat_pyStrFloat {q : ℚ} {j : ℕ} (h : q.den ∣ 10 ^ j) :
    pyFloat (pyStrFloat q) = some q := by
  obtain ⟨k, hk⟩ := decExponent_isSome_of_dvd h
  exact pyStrFloatL_parses hk

/-! ## Helper lemmas: every parsed float is a finite decimal -/

theorem den_dvd_of_add_div (a b l : ℕ) :
    ((a : ℚ) + (b : ℚ) / 10 ^ l).den ∣ 10 ^ l := by
  have hval : ((a : ℚ) + (b : ℚ) / 10 ^ l)
      = Rat.divInt ((a * 10 ^ l + b : ℕ) : ℤ) ((10 ^ l : ℕ) : ℤ) := by
    rw [Rat.divInt_eq_div]
    push_cast
    have h10 : ((10 : ℚ) ^ l) ≠ 0 := by positivity
    field_simp
  rw [hval]
  have hd := Rat.den_dvd ((a * 10 ^ l + b : ℕ) : ℤ) ((10 ^ l : ℕ) : ℤ)
  exact_mod_cast hd

theorem parseUnsigned_den_dvd {l : List Char} {q : ℚ}
    (h : parseUnsigned l = some q) : ∃ j, q.den ∣ 10 ^ j := by
  rw [parseUnsigned] at h
  split at h
  · split at h
    · obtain rfl := Option.some_injective _ h.symm
      exact ⟨0, by simp⟩
    · exact absurd h (by simp)
  · split at h
    · obtain rfl := Option.some_injective _ h.symm
      exact ⟨_, den_dvd_of_add_div _ _ _⟩
    · exact absurd h (by simp)
  · exact absurd h (by simp)

theorem pyFloatL_den_dvd {l : List Char} {q : ℚ}
    (h : pyFloatL l = some q) : ∃ j, q.den ∣ 10 ^ j := by
  rw [pyFloatL] at h
  split at h
  · exact absurd h (by simp)
  · split_ifs at h
    · rw [Option.map_eq_some'] at h
      obtain ⟨p, hp, rfl⟩ := h
      obtain ⟨j, hj⟩ := parseUnsigned_den_dvd hp
      exact ⟨j, by rwa [Rat.den_neg_eq_den]⟩
    · exact parseUnsigned_den_dvd h
    · exact parseUnsigned_den_dvd h

theorem pyFloatD_den_dvd {o : Option String} {q : ℚ}
    (h : pyFloatD o = some q) : ∃ j, q.den ∣ 10 ^ j := by
  rcases o with _ | s
  · obtain rfl := Option.some_injective _ h.symm
    exact ⟨0, by simp⟩
  · exact pyFloatL_den_dvd h

/-! ## Helper lemmas: two-decimal formatting -/

theorem roundHalfEven_den_one {x : ℚ} (h : x.den = 1) : ((roundHalfEven x : ℤ) : ℚ) = x := by
  have hx : ((⌊x⌋ : ℤ) : ℚ) = x := by
    have hn := (Rat.den_eq_one_iff x).mp h
    rw [← hn, Int.floor_intCast]
  rw [roundHalfEven]
  simp only [hx, sub_self]
  norm_num
  exact hx

theorem roundHalfEven_nonneg {x : ℚ} (h : 0 ≤ x) : 0 ≤ roundHalfEven x := by
  have hf : 0 ≤ ⌊x⌋ := Int.floor_nonneg.mpr h
  rw [roundHalfEven]
  split_ifs <;> omega

theorem roundHalfEven_nonpos {x : ℚ} (h : x < 0) : roundHalfEven x ≤ 0 := by
  have hf : ⌊x⌋ < 0 := by
    have := Int.floor_le x
    have hcast : (⌊x⌋ : ℚ) < 0 := lt_of_le_of_lt this h
    exact_mod_cast hcast
  rw [roundHalfEven]
  split_ifs <;> omega

theorem format2fL_parses (q : ℚ) :
    pyFloatL (format2fL q) = some ((roundHalfEven (q * 100) : ℤ) / 100 : ℚ) := by
  set r := roundHalfEven (q * 100) with hr
  set a := r.natAbs with ha
  set frac : List Char :=
    List.replicate (2 - (natDigits (a % 100)).length) '0' ++ natDigits (a % 100) with hfrac
  have hfd : ∀ c ∈ frac, c.isDigit = true := by
    rw [hfrac]
    intro c hc
    rcases List.mem_append.mp hc with hc | hc
    · have := List.eq_of_mem_replicate hc
      subst this
      decide
    · exact natDigits_all_digit _ c hc
  have hparse : parseUnsigned (natDigits (a / 100) ++ '.' :: frac) =
      some ((natOfDigits (natDigits (a / 100)) : ℚ)
        + natOfDigits frac / 10 ^ frac.length) :=
    parseUnsigned_point (natDigits_ne_nil _) (natDigits_all_digit _) hfd
  have hM : a % 100 < 100 := Nat.mod_lt _ (by norm_num)
  have hM2 : a % 100 < 10 ^ 2 := by norm_num at hM ⊢; omega
  have hL : (natDigits (a % 100)).length ≤ 2 := natDigits_length_le hM2 (by norm_num)
  have hlen : frac.length = 2 := by
    rw [hfrac]
    simp only [List.length_append, List.length_replicate]
    omega
  have hval : (natOfDigits (natDigits (a / 100)) : ℚ)
      + natOfDigits frac / 10 ^ frac.length = (a : ℚ) / 100 := by
    rw [natOfDigits_natDigits, hlen, hfrac, natOfDigits_replicate_zero, natOfDigits_natDigits]
    have hNd : 100 * (a / 100) + a % 100 = a := Nat.div_add_mod a 100
    have hcast : (100 : ℚ) * ((a / 100 : ℕ) : ℚ) + ((a % 100 : ℕ) : ℚ) = (a : ℚ) := by
      exact_mod_cast congrArg (fun n : ℕ => (n : ℚ)) hNd
    norm_num
    field_simp
    linarith [hcast]
  have hns_body : ∀ x ∈ natDigits (a / 100) ++ '.' :: frac, pyIsSpace x = false := by
    intro x hx
    rcases List.mem_append.mp hx with hx | hx
    · exact isDigit_not_space (natDigits_all_digit _ x hx)
    · rcases List.mem_cons.mp hx with hx | hx
      · subst hx
        decide
      · exact isDigit_not_space (hfd x hx)
  have hbody : format2fL q = (if q < 0 then ['-'] else []) ++ (natDigits (a / 100) ++ '.' :: frac) := by
    rw [format2fL, ← List.append_assoc]
  rw [hbody]
  by_cases hq : q < 0
  · have hrle : r ≤ 0 := roundHalfEven_nonpos (by
      have : q * 100 < 0 := by nlinarith
      exact this)
    simp only [hq, if_true, List.singleton_append]
    have hns : ∀ x ∈ '-' :: (natDigits (a / 100) ++ '.' :: frac), pyIsSpace x = false := by
      intro x hx
      rcases List.mem_cons.mp hx with hx | hx
      · subst hx
        decide
      · exact hns_body x hx
    rw [pyFloatL_negStart hns, hparse]
    simp only [Option.map_some']
    congr 1
    rw [hval]
    have haq : (a : ℚ) = -(r : ℚ) := by
      rw [ha, Int.cast_natAbs, Int.cast_abs]
      rw [abs_of_nonpos (by exact_mod_cast hrle : (r : ℚ) ≤ 0)]
    rw [haq]
    ring
  · have hrge : 0 ≤ r := roundHalfEven_nonneg (by nlinarith [le_of_not_lt hq])
    simp only [hq, if_false, List.nil_append]
    obtain ⟨c, cs, hcons⟩ := List.exists_cons_of_ne_nil (natDigits_ne_nil (a / 100))
    have hcd : c.isDigit = true :=
      natDigits_all_digit _ c (hcons ▸ List.mem_cons_self c cs)
    rw [hcons, List.cons_append]
    rw [pyFloatL_digitStart hcd (by
      intro x hx
      apply hns_body
      rw [hcons, List.cons_append]
      exact hx)]
    rw [← List.cons_append, ← hcons, hparse]
    congr 1
    rw [hval]
    have haq : (a : ℚ) = (r : ℚ) := by
      rw [ha, Int.cast_natAbs, Int.cast_abs]
      rw [abs_of_nonneg (by exact_mod_cast hrge : (0 : ℚ) ≤ (r : ℚ))]
    rw [haq]

theorem format2f_exact {q : ℚ} (h : (q * 100).den = 1) : pyFloat (format2f q) = some q := by
  show pyFloatL (format2fL q) = some q
  rw [format2fL_parses, roundHalfEven_den_one h]
  congr 1
  field_simp

theorem den_one_add {a b : ℚ} (ha : a.den = 1) (hb : b.den = 1) : (a + b).den = 1 := by
  have ha' := (Rat.den_eq_one_iff a).mp ha
  have hb' := (Rat.den_eq_one_iff b).mp hb
  rw [← ha', ← hb', ← Int.cast_add, Rat.den_intCast]

/-! ## Claim C10: de-duplication repairs doubling -/

theorem deduplicateTextL_doubleChars : ∀ l : List Char, deduplicateTextL (doubleChars l) = l
  | [] => rfl
  | c :: rest => by
    simp [doubleChars, deduplicateTextL, deduplicateTextL_doubleChars rest]

/-- C10: `_deduplicate_text` is a left inverse of character doubling — for
every string `t`, de-duplicating the string that writes each character of
`t` twice returns exactly `t`. -/
theorem deduplicate_text_left_inverse_c10 (t : String) :
    deduplicate_text (String.mk (doubleChars t.data)) = t := by
  show String.mk (deduplicateTextL (doubleChars t.data)) = t
  rw [deduplicateTextL_doubleChars]

/-! ## Claim C6: the Date Normalizer can raise -/

set_option maxRecDepth 10000 in
/-- C6 evidence: `normalize_date` is not total.  On the input `"1-2-"` the
separator split yields the three parts `1`, `2` and an empty year, the
day-month-year branch is taken, and `int('')` — which sits outside the
`try` block of the source — raises a `ValueError` instead of returning
null. -/
theorem normalize_date_raises_c6 :
    normalize_date "1-2-" "en" = Except.error "ValueError: invalid literal for int()" := rfl

/-! ## Claim C2: the global-discount step raises NameError -/

/-- C2 evidence: with `gross_amount` and `discount_amount` both present as
strings parsing to positive floats (`100.0` and `10.0`) and no `total` key
in `totals`, `_apply_global_discount` reaches the line
`self.data['totals']['total'] = f"{subtotal:.2f}"`, whose local name
`subtotal` is undefined, and raises a `NameError` instead of completing. -/
theorem applyGlobalDiscount_raises_c2 :
    pyFloat "100.0" = some 100 ∧ pyFloat "10.0" = some 10 ∧
    applyGlobalDiscount
        { gross_amount := some "100.0", discount_amount := some "10.0" }
        [{ description := some "Widget", unit_price := some "10.00", total := some "20.00" }] =
      Except.error "NameError: name subtotal is not defined" := by
  refine ⟨?_, ?_, ?_⟩
  · simp +decide [pyFloat, pyFloatL, pyStrip, pyIsSpace, parseUnsigned, splitChar,
      natOfDigits, digitVal]
  · simp +decide [pyFloat, pyFloatL, pyStrip, pyIsSpace, parseUnsigned, splitChar,
      natOfDigits, digitVal]
  · simp +decide [applyGlobalDiscount, truthy]

/-! ## Claim C4: shipping rows fold into the fee -/

/-- C4 counterexample: processing the row `{sku: "SHIPPING", total:
"12.50"}` from a fresh state leaves `totals.shipping_fee` equal to
`"12.5"` — the `str()` of the float `12.5` — and not to the string
`"12.50"` the claim asserts. -/
theorem shipping_fee_c4_counterexample :
    (processItem { vendor := { name := "Acme" } } {}
        { sku := some "SHIPPING", total := some "12.50" }).1.shipping_fee = some "12.5" ∧
    some "12.5" ≠ some "12.50" := by
  constructor
  · have h1 : pyFloat "12.50" = some (Rat.mk' 25 2 (by decide) (by decide)) := by
      simp +decide [pyFloat, pyFloatL, pyStrip, pyIsSpace, parseUnsigned, splitChar,
        natOfDigits, digitVal, Rat.mk'_eq_divInt, Rat.divInt_eq_div]
      norm_num
    simp +decide [processItem, shakerStep, processMain, backfillSku, isShippingItem, truthy,
      startsWithL, lowerChar, upperChar, hasWordOccur, hasWordOccur.go, isSubstr,
      freightKeywords, shipFeeUpdate, pyFloatD, h1]
  · decide

/-- C4 as the code has it: for every configuration, the row `{sku:
"SHIPPING", total: "12.50"}` is never emitted as an item; from a fresh
state the accumulated fee is the string `"12.5"` (Python `str` of the
float sum `0.0 + 12.5`), and processing a second identical row yields
`"25.0"` (the `str` of `12.5 + 12.5`) — shipping totals accumulate
additively as float values. -/
theorem shipping_fee_accumulates_c4 (cfg : ParserConfig) :
    processItem cfg {} { sku := some "SHIPPING", total := some "12.50" } =
      ({ pending_item := none, shipping_fee := some "12.5" }, none) ∧
    processItem cfg { pending_item := none, shipping_fee := some "12.5" }
        { sku := some "SHIPPING", total := some "12.50" } =
      ({ pending_item := none, shipping_fee := some "25.0" }, none) ∧
    pyStrFloat (25 / 2) = "12.5" ∧ pyStrFloat (25 / 2 + 25 / 2) = "25.0" := by
  have h1 : pyFloat "12.50" = some (Rat.mk' 25 2 (by decide) (by decide)) := by
    simp +decide [pyFloat, pyFloatL, pyStrip, pyIsSpace, parseUnsigned, splitChar,
      natOfDigits, digitVal, Rat.mk'_eq_divInt, Rat.divInt_eq_div]
    norm_num
  have h2 : pyFloat "12.5" = some (Rat.mk' 25 2 (by decide) (by decide)) := by
    simp +decide [pyFloat, pyFloatL, pyStrip, pyIsSpace, parseUnsigned, splitChar,
      natOfDigits, digitVal, Rat.mk'_eq_divInt, Rat.divInt_eq_div]
    norm_num
  have h3 : (Rat.mk' 25 2 (by decide) (by decide) : ℚ) + Rat.mk' 25 2 (by decide) (by decide) =
      Rat.mk' 25 1 (by decide) (by decide) := by
    simp only [Rat.mk'_eq_divInt, Rat.divInt_eq_div]
    norm_num
  have hq1 : (25 / 2 : ℚ) = Rat.mk' 25 2 (by decide) (by decide) := by
    simp only [Rat.mk'_eq_divInt, Rat.divInt_eq_div]
    norm_num
  refine ⟨?_, ?_, ?_, ?_⟩
  · by_cases hv : cfg.vendor.name = "Shaker Store" <;>
      simp +decide [processItem, shakerStep, processMain, backfillSku, isShippingItem, truthy,
        startsWithL, lowerChar, upperChar, hasWordOccur, hasWordOccur.go, isSubstr,
        freightKeywords, shipFeeUpdate, pyFloatD, h1, hv]
  · by_cases hv : cfg.vendor.name = "Shaker Store" <;>
      simp +decide [processItem, shakerStep, processMain, backfillSku, isShippingItem, truthy,
        startsWithL, lowerChar, upperChar, hasWordOccur, hasWordOccur.go, isSubstr,
        freightKeywords, shipFeeUpdate, pyFloatD, h1, h2, h3, hv]
  · rw [hq1]
    decide
  · rw [hq1, h3]
    decide

/-! ## Claim C5: the multi-line merge state machine -/

/-- C5 counterexample: for a run configured with any vendor other than
Shaker Store, feeding the identity row `{sku: "A", description:
"Widget"}` already emits an item — the bare identity row, without the
priced fields — so the two-row sequence does not produce exactly the one
merged item the claim asserts for every run. -/
theorem merge_state_machine_c5_counterexample :
    (processItem { vendor := { name := "Dynveo" } } {}
        { sku := some "A", description := some "Widget" }).2 =
      some { sku := some "A", description := some "Widget" } ∧
    some ({ sku := some "A", description := some "Widget" } : Item) ≠
      some ({ sku := some "A", description := some "Widget", quantity := some "2",
              unit_price := some "5.00", total := some "10.00" } : Item) := by
  constructor
  · simp +decide [processItem, shakerStep, mergeItems, processMain, backfillSku, truthy,
      startsWithL, isShippingItem, lowerChar, upperChar, hasWordOccur, hasWordOccur.go,
      isSubstr, freightKeywords, isFooterRow, footerKeywords, pyStrip, pyIsSpace,
      isMetadataOnly, metadataPatterns, cleanDescLines, splitChar, computeTotal, skuFromBracket]
  · decide

/-- C5 as the code has it (the state machine runs only for the Shaker
Store vendor): the identity row is cached and emits nothing, the
following priced row merges with the cache and emits exactly the combined
item, and a lone priced row arriving on an empty cache is dropped. -/
theorem merge_state_machine_c5 :
    processItem { vendor := { name := "Shaker Store" } } {}
        { sku := some "A", description := some "Widget" } =
      ({ pending_item := some { sku := some "A", description := some "Widget" },
         shipping_fee := none }, none) ∧
    processItem { vendor := { name := "Shaker Store" } }
        { pending_item := some { sku := some "A", description := some "Widget" },
          shipping_fee := none }
        { quantity := some "2", unit_price := some "5.00", total := some "10.00" } =
      ({ pending_item := none, shipping_fee := none },
       some { sku := some "A", description := some "Widget", quantity := some "2",
              unit_price := some "5.00", total := some "10.00" }) ∧
    processItem { vendor := { name := "Shaker Store" } } {}
        { quantity := some "2", unit_price := some "5.00", total := some "10.00" } =
      ({ pending_item := none, shipping_fee := none }, none) := by
  refine ⟨?_, ?_, ?_⟩
  · simp +decide [processItem, shakerStep, truthy]
  · simp +decide [processItem, shakerStep, mergeItems, processMain, backfillSku, truthy,
      startsWithL, isShippingItem, lowerChar, upperChar, hasWordOccur, hasWordOccur.go,
      isSubstr, freightKeywords, isFooterRow, footerKeywords, pyStrip, pyIsSpace,
      isMetadataOnly, metadataPatterns, cleanDescLines, splitChar, computeTotal]
  · simp +decide [processItem, shakerStep, truthy]

/-! ## Claim C9: the Life Pro negative-row merge -/

theorem lifeproMergeItem_quantity (a : Item) (nt : ℚ) :
    (lifeproMergeItem a nt).quantity = a.quantity := by
  rw [lifeproMergeItem]
  rcases pyFloatD a.quantity with _ | q
  · rfl
  · by_cases hq0 : q = 0 <;> simp [hq0]

theorem lifeproMergeItem_total (a : Item) (nt : ℚ) :
    (lifeproMergeItem a nt).total = some (format2f nt) := by
  rw [lifeproMergeItem]
  rcases pyFloatD a.quantity with _ | q
  · rfl
  · by_cases hq0 : q = 0 <;> simp [hq0]

theorem lifeproPass_quantities :
    ∀ items : List Item,
      ((lifeproPass items).map Item.quantity).Sublist (items.map Item.quantity)
  | [] => by simp [lifeproPass]
  | [a] => by simp [lifeproPass]
  | a :: b :: rest => by
    rw [lifeproPass]
    rcases hfb : pyFloatD b.total with _ | tb
    · simp only [List.map_cons]
      exact List.Sublist.cons₂ _ (by
        simpa using lifeproPass_quantities (b :: rest))
    · by_cases htb : tb < 0
      · simp only [htb, if_true]
        rcases hfa : pyFloatD a.total with _ | ta
        · simp only [List.map_cons]
          exact List.Sublist.cons₂ _ (by
            simpa using lifeproPass_quantities (b :: rest))
        · simp only [List.map_cons, lifeproMergeItem_quantity]
          exact List.Sublist.cons₂ _ ((lifeproPass_quantities rest).trans
            (List.sublist_cons_self _ _))
      · simp only [htb, if_false, List.map_cons]
        exact List.Sublist.cons₂ _ (by
          simpa using lifeproPass_quantities (b :: rest))

theorem sumItemTotals_exists :
    ∀ l : List Item, (∀ it ∈ l, ∃ q, pyFloatD it.total = some q) →
      ∃ s, sumItemTotals l = some s
  | [], _ => ⟨0, rfl⟩
  | it :: rest, h => by
    obtain ⟨t, ht⟩ := h it (List.mem_cons_self it rest)
    obtain ⟨s, hs⟩ := sumItemTotals_exists rest (fun x hx => h x (List.mem_cons_of_mem it hx))
    exact ⟨t + s, by rw [sumItemTotals, ht, hs]⟩

theorem lifeproPass_sum :
    ∀ items : List Item,
      (∀ it ∈ items, ∃ q, pyFloatD it.total = some q ∧ (q * 100).den = 1) →
      sumItemTotals (lifeproPass items) = sumItemTotals items
  | [], _ => rfl
  | [a], _ => rfl
  | a :: b :: rest, h => by
    have hrest2 : ∀ it ∈ b :: rest, ∃ q, pyFloatD it.total = some q ∧ (q * 100).den = 1 :=
      fun x hx => h x (List.mem_cons_of_mem a hx)
    have hrest : ∀ it ∈ rest, ∃ q, pyFloatD it.total = some q ∧ (q * 100).den = 1 :=
      fun x hx => hrest2 x (List.mem_cons_of_mem b hx)
    rw [lifeproPass]
    rcases hfb : pyFloatD b.total with _ | tb
    · rw [sumItemTotals, lifeproPass_sum (b :: rest) hrest2]
      rfl
    · by_cases htb : tb < 0
      · simp only [htb, if_true]
        rcases hfa : pyFloatD a.total with _ | ta
        · rw [sumItemTotals, lifeproPass_sum (b :: rest) hrest2]
          rfl
        · obtain ⟨qa, hqa, hda⟩ := h a (List.mem_cons_self a (b :: rest))
          obtain ⟨qb, hqb, hdb⟩ := hrest2 b (List.mem_cons_self b rest)
          rw [hfa] at hqa
          rw [← Option.some_injective _ hqa] at hda
          rw [hfb] at hqb
          rw [← Option.some_injective _ hqb] at hdb
          have hdsum : ((ta + tb) * 100).den = 1 := by
            have : (ta + tb) * 100 = ta * 100 + tb * 100 := by ring
            rw [this]
            exact den_one_add hda hdb
          have hparse : pyFloatD (some (format2f (ta + tb))) = some (ta + tb) :=
            format2f_exact hdsum
          obtain ⟨s, hs⟩ := sumItemTotals_exists rest
            (fun x hx => (hrest x hx).imp (fun q hq => hq.1))
          rw [sumItemTotals, lifeproMergeItem_total, hparse, lifeproPass_sum rest hrest, hs]
          rw [sumItemTotals, hfa, sumItemTotals, hfb, hs]
          show some (ta + tb + s) = some (ta + (tb + s))
          rw [add_assoc]
      · simp only [htb, if_false]
        rw [sumItemTotals, lifeproPass_sum (b :: rest) hrest2]
        rfl

/-- C9 counterexample: for a Life Pro run on two items whose totals
(`0.004` and `-0.003`) and quantities all parse as floats, the merge step
rounds the merged total to two decimals (`f"{...:.2f}"`), so the sum of
totals drops from `0.001` to `0` — the sum is not preserved. -/
theorem lifepro_sum_c9_counterexample :
    pyFloat "0.004" = some (1 / 250) ∧ pyFloat "-0.003" = some (-(3 / 1000)) ∧
    pyFloat "1" = some 1 ∧
    sumItemTotals
        [{ description := some "A", quantity := some "1", total := some "0.004" },
         { description := some "B", quantity := some "1", total := some "-0.003" }] =
      some (1 / 1000) ∧
    sumItemTotals (applyLifeproLogic { vendor := { name := "Life Pro" } }
        [{ description := some "A", quantity := some "1", total := some "0.004" },
         { description := some "B", quantity := some "1", total := some "-0.003" }]) =
      some 0 ∧
    (1 / 1000 : ℚ) ≠ 0 := by
  have h4 : pyFloat "0.004" = some (Rat.mk' 1 250 (by decide) (by decide)) := by
    simp +decide [pyFloat, pyFloatL, pyStrip, pyIsSpace, parseUnsigned, splitChar,
      natOfDigits, digitVal, Rat.mk'_eq_divInt, Rat.divInt_eq_div]
    norm_num
  have h3 : pyFloat "-0.003" = some (-(Rat.mk' 3 1000 (by decide) (by decide))) := by
    simp +decide [pyFloat, pyFloatL, pyStrip, pyIsSpace, parseUnsigned, splitChar,
      natOfDigits, digitVal, Rat.mk'_eq_divInt, Rat.divInt_eq_div]
    norm_num
  have h1 : pyFloat "1" = some 1 := by
    simp +decide [pyFloat, pyFloatL, pyStrip, pyIsSpace, parseUnsigned, splitChar,
      natOfDigits, digitVal]
  have hmkval : (Rat.mk' 1 250 (by decide) (by decide) : ℚ) = 1 / 250 := by
    simp only [Rat.mk'_eq_divInt, Rat.divInt_eq_div]
    norm_num
  have hmkval3 : (Rat.mk' 3 1000 (by decide) (by decide) : ℚ) = 3 / 1000 := by
    simp only [Rat.mk'_eq_divInt, Rat.divInt_eq_div]
    norm_num
  have hnt : (Rat.mk' 1 250 (by decide) (by decide) : ℚ) + -(Rat.mk' 3 1000 (by decide) (by decide)) =
      Rat.mk' 1 1000 (by decide) (by decide) := by
    simp only [Rat.mk'_eq_divInt, Rat.divInt_eq_div]
    norm_num
  have hfmt : format2f (Rat.mk' 1 1000 (by decide) (by decide)) = "0.00" := by
    have hfloor : ⌊(Rat.mk' 1 1000 (by decide) (by decide) : ℚ) * 100⌋ = 0 := by
      rw [Int.floor_eq_iff]
      simp only [Rat.mk'_eq_divInt, Rat.divInt_eq_div]
      norm_num
    have hrhe : roundHalfEven (Rat.mk' 1 1000 (by decide) (by decide) * 100) = 0 := by
      rw [roundHalfEven, hfloor]
      have hlt : (Rat.mk' 1 1000 (by decide) (by decide) : ℚ) * 100 - ((0 : ℤ) : ℚ) < 1 / 2 := by
        simp only [Rat.mk'_eq_divInt, Rat.divInt_eq_div]
        norm_num
      simp only [hlt, if_true]
    rw [format2f, format2fL, hrhe]
    decide
  refine ⟨by rw [h4, hmkval], by rw [h3, hmkval3], h1, ?_, ?_, by norm_num⟩
  · simp only [sumItemTotals, pyFloatD, h4, h3, add_zero]
    rw [hnt]
    simp only [Rat.mk'_eq_divInt, Rat.divInt_eq_div]
    norm_num
  · rw [applyLifeproLogic]
    simp only [if_pos (by decide : String.mk
      ((VendorConfig.mk "Life Pro" "EUR" "fr").name.data.map lowerChar) = "life pro")]
    rw [lifeproPass]
    simp only [pyFloatD, h3, h4]
    rw [if_pos (by
      rw [hmkval3]
      norm_num : -(Rat.mk' 3 1000 (by decide) (by decide) : ℚ) < 0)]
    rw [hnt]
    have hz : pyFloat "0.00" = some 0 := by
      simp +decide [pyFloat, pyFloatL, pyStrip, pyIsSpace, parseUnsigned, splitChar,
        natOfDigits, digitVal]
    simp only [lifeproPass, sumItemTotals, lifeproMergeItem_total, pyFloatD, hfmt, hz,
      add_zero]

/-- C9 as the code has it: for every configuration and item list in which
every item's total parses as a float `q` with `q * 100` integral (at most
two decimal places, the precision the engine itself produces), the Life
Pro merge preserves the sum of the totals exactly, and the quantity fields
of the surviving items form a sublist of the original quantity fields
(every surviving item keeps its original quantity). -/
theorem lifepro_preserves_sum_c9 (cfg : ParserConfig) (items : List Item)
    (h : ∀ it ∈ items, ∃ q, pyFloatD it.total = some q ∧ (q * 100).den = 1) :
    sumItemTotals (applyLifeproLogic cfg items) = sumItemTotals items ∧
    ((applyLifeproLogic cfg items).map Item.quantity).Sublist (items.map Item.quantity) := by
  rw [applyLifeproLogic]
  split_ifs
  · exact ⟨lifeproPass_sum items h, lifeproPass_quantities items⟩
  · exact ⟨rfl, List.Sublist.refl _⟩

/-- C9 witness: the amended theorem applied to a concrete Life Pro run. -/
theorem lifepro_preserves_sum_c9_witness :
    sumItemTotals (applyLifeproLogic { vendor := { name := "Life Pro" } }
        [{ description := some "A", quantity := some "2", total := some "3.50" }]) =
      sumItemTotals [{ description := some "A", quantity := some "2", total := some "3.50" }] ∧
    ((applyLifeproLogic { vendor := { name := "Life Pro" } }
        [{ description := some "A", quantity := some "2", total := some "3.50" }]).map
        Item.quantity).Sublist
      ([{ description := some "A", quantity := some "2", total := some "3.50" }].map
        Item.quantity) :=
  lifepro_preserves_sum_c9 _ _ (by
    intro it hit
    simp only [List.mem_singleton] at hit
    subst hit
    refine ⟨Rat.mk' 7 2 (by decide) (by decide), ?_, ?_⟩
    · simp +decide [pyFloatD, pyFloat, pyFloatL, pyStrip, pyIsSpace, parseUnsigned, splitChar,
        natOfDigits, digitVal, Rat.mk'_eq_divInt, Rat.divInt_eq_div]
      norm_num
    · have h350 : (Rat.mk' 7 2 (by decide) (by decide) : ℚ) * 100 = ((350 : ℕ) : ℚ) := by
        simp only [Rat.mk'_eq_divInt, Rat.divInt_eq_div]
        norm_num
      rw [h350, Rat.den_natCast])


/-! ## Claim C7: header number fields are not normalized -/

/-- C7 counterexample: a header field rule of value type `number` whose
pattern captures `"1.234,56"` stores the raw captured string into its
target namespace, while the footer extractor stores the normalized
`str(parse_number(...)) = "1234.56"` for the same capture — so header
number fields are not normalized the way footer number fields are. -/
theorem header_number_c7_counterexample :
    extractHeader "fr" (fun _ => some "1.234,56")
        [{ name := "gross_amount", regex := "", type := "number", target := "metadata" }] {} =
      Except.ok { metadata := [("gross_amount", some "1.234,56")] } ∧
    extractFooter (fun _ => some "1.234,56")
        [{ name := "gross_amount", regex := "", type := "number", target := "metadata" }] {} =
      { totals := [("gross_amount", some "1234.56")] } ∧
    ("1.234,56" : String) ≠ "1234.56" := by
  have hp : parse_number "1.234,56" = Rat.mk' 30864 25 (by decide) (by decide) := by
    simp +decide [parse_number, parseNumberL, stripCurrency, removeEUR, pyStrip, pyIsSpace,
      isInvisible, cleanNumberMatch, splitChar, lastSepIsComma, commaToDot, pyFloatL,
      parseUnsigned, natOfDigits, digitVal, Rat.mk'_eq_divInt, Rat.divInt_eq_div]
    norm_num
  refine ⟨?_, ?_, by decide⟩
  · simp +decide [extractHeader, truthy, storeTarget, setKey]
  · simp +decide [extractFooter, truthy, setKey, hp]

/-- C7 as the code has it: for every field rule of value type `number`
and every non-empty captured value, `_extract_header` stores the raw
captured string into the rule target namespace (only `date` fields are
normalized there), while `_extract_footer` stores the normalized
`str(parse_number(value))` — the two extractors treat number fields
differently. -/
theorem header_number_raw_c7 (f : FieldRule) (v lang : String) (d : DocData)
    (htype : f.type = "number") (hv : v ≠ "") :
    extractHeader lang (fun _ => some v) [f] d =
      Except.ok (storeTarget d f.target f.name (some v)) ∧
    extractFooter (fun _ => some v) [f] d =
      { d with totals := setKey d.totals f.name (some (pyStrFloat (parse_number v))) } := by
  have hemp : v.isEmpty = false := by
    rcases hb : v.isEmpty with _ | _
    · rfl
    · exact absurd ((String.isEmpty_iff v).mp hb) hv
  constructor
  · rw [extractHeader]
    simp [truthy, hemp, htype, extractHeader]
  · rw [extractFooter]
    simp [truthy, hemp, htype, extractFooter]

/-- C7 witness: the amended theorem applied at a concrete number rule and
captured value. -/
theorem header_number_raw_c7_witness :
    extractHeader "fr" (fun _ => some "7,5")
        [{ name := "total", regex := "", type := "number", target := "metadata" }] {} =
      Except.ok (storeTarget {} "metadata" "total" (some "7,5")) ∧
    extractFooter (fun _ => some "7,5")
        [{ name := "total", regex := "", type := "number", target := "metadata" }] {} =
      { ({} : DocData) with
        totals := setKey ({} : DocData).totals "total"
          (some (pyStrFloat (parse_number "7,5"))) } :=
  header_number_raw_c7
    { name := "total", regex := "", type := "number", target := "metadata" }
    "7,5" "fr" {} rfl (by decide)


/-! ## Claim C3: the document-level mathematical check -/

/-- C3 counterexample: the document with one item summing to `30.00`,
shipping fee `5.00` and declared subtotal `35.00` fails the stricter
comparison (`|30 - 35| > 0.5`) but passes the shipping-inclusive one, and
`_check_mathematics` appends nothing at all — no error, but also none of
the warnings the claim asserts for this case. -/
theorem check_mathematics_c3_counterexample :
    checkMathematics
        [{ description := some "W", quantity := some "2", unit_price := some "15.00",
           total := some "30.00" }]
        { subtotal := some "35.00", shipping_fee := some "5.00" } = ([], []) ∧
    (1 / 2 : ℚ) < |(30 : ℚ) - 35| := by
  have h2 : pyFloat "2" = some 2 := by
    simp +decide [pyFloat, pyFloatL, pyStrip, pyIsSpace, parseUnsigned, splitChar,
      natOfDigits, digitVal]
  have h15 : pyFloat "15.00" = some 15 := by
    simp +decide [pyFloat, pyFloatL, pyStrip, pyIsSpace, parseUnsigned, splitChar,
      natOfDigits, digitVal]
  have h30 : pyFloat "30.00" = some 30 := by
    simp +decide [pyFloat, pyFloatL, pyStrip, pyIsSpace, parseUnsigned, splitChar,
      natOfDigits, digitVal]
  have h35 : pyFloat "35.00" = some 35 := by
    simp +decide [pyFloat, pyFloatL, pyStrip, pyIsSpace, parseUnsigned, splitChar,
      natOfDigits, digitVal]
  have h5 : pyFloat "5.00" = some 5 := by
    simp +decide [pyFloat, pyFloatL, pyStrip, pyIsSpace, parseUnsigned, splitChar,
      natOfDigits, digitVal]
  have hA : ¬((5 : ℚ) / 100 < |(2 : ℚ) * 15 - 30|) := by norm_num
  have hB : ¬((1 : ℚ) / 2 < |(30 : ℚ) + 5 - 35|) := by norm_num
  refine ⟨?_, by norm_num⟩
  rw [checkMathematics]
  simp +decide [sumItemTotals, itemWarning, pyFloatD, h2, h15, h30, h35, h5, truthy,
    decide_eq_false hA, decide_eq_false hB]
  norm_num

/-- C3 as the code has it: with at least one item, all totals parseable, a
truthy parseable declared subtotal and a parseable (or absent) shipping
fee, `_check_mathematics` appends a hard error exactly when both
`|sum - subtotal| > 0.5` and `|sum + shipping - subtotal| > 0.5` hold;
when only the stricter comparison fails nothing is appended — the
document-level block never produces warnings, as the second conjunct
states: the warning list does not depend on the totals at all. -/
theorem check_mathematics_c3 (items : List Item) (totals : TotalsMap) (s ds sh : ℚ)
    (hne : items ≠ [])
    (hsum : sumItemTotals items = some s)
    (hsub : truthy totals.subtotal = true)
    (hds : pyFloat (totals.subtotal.getD "") = some ds)
    (hsh : (if truthy totals.shipping_fee then pyFloat (totals.shipping_fee.getD "")
            else some 0) = some sh) :
    ((checkMathematics items totals).1 ≠ [] ↔
      1 / 2 < |s - ds| ∧ 1 / 2 < |s + sh - ds|) ∧
    ∀ totals2 : TotalsMap,
      (checkMathematics items totals2).2 = (checkMathematics items totals).2 := by
  have hie : items.isEmpty = false := by
    cases items with
    | nil => exact absurd rfl hne
    | cons a t => rfl
  constructor
  · rw [checkMathematics]
    simp only [hie, Bool.false_eq_true, if_false, hsum, hsub, if_true, hds, hsh]
    by_cases hc : 1 / 2 < |s - ds| ∧ 1 / 2 < |s + sh - ds|
    · simp [hc.1, hc.2]
    · rw [Decidable.not_and_iff_or_not] at hc
      rcases hc with hc | hc <;>
        simp [decide_eq_false hc, hc]
  · intro totals2
    rw [checkMathematics, checkMathematics]
    simp only [hie, Bool.false_eq_true, if_false]

/-- C3 witness: the amended theorem applied to a one-item document whose
sum (`30`) differs from the declared subtotal (`20.00`) by more than the
tolerance both with and without the (absent) shipping fee, so the hard
error is appended. -/
theorem check_mathematics_c3_witness :
    ((checkMathematics
        [{ description := some "W", quantity := some "2", unit_price := some "15.00",
           total := some "30.00" }]
        { subtotal := some "20.00" }).1 ≠ [] ↔
      1 / 2 < |(30 : ℚ) - 20| ∧ 1 / 2 < |(30 : ℚ) + 0 - 20|) ∧
    ∀ totals2 : TotalsMap,
      (checkMathematics
        [{ description := some "W", quantity := some "2", unit_price := some "15.00",
           total := some "30.00" }] totals2).2 =
      (checkMathematics
        [{ description := some "W", quantity := some "2", unit_price := some "15.00",
           total := some "30.00" }]
        { subtotal := some "20.00" }).2 :=
  check_mathematics_c3 _ _ 30 20 0 (by decide)
    (by
      simp +decide [sumItemTotals, pyFloatD, pyFloat, pyFloatL, pyStrip, pyIsSpace,
        parseUnsigned, splitChar, natOfDigits, digitVal])
    (by decide)
    (by
      simp +decide [pyFloat, pyFloatL, pyStrip, pyIsSpace, parseUnsigned, splitChar,
        natOfDigits, digitVal])
    (by decide)


/-! ## Claim C8: shipping classification, exclusion and fee accumulation -/

theorem falsy_getD_data {o : Option String} (h : truthy o = false) : (o.getD "").data = [] := by
  rcases o with _ | d
  · rfl
  · have hie : d.isEmpty = true := by
      rcases hb : d.isEmpty with _ | _
      · exfalso
        rw [show truthy (some d) = !d.isEmpty from rfl, hb] at h
        exact absurd h (by decide)
      · rfl
    have hd := (String.isEmpty_iff d).mp hie
    rw [Option.getD_some, hd]

theorem isShippingItem_identity {item : Item}
    (hs : isShippingItem (backfillSku item) = true) :
    (!truthy item.description && !truthy item.sku && !truthy item.position) = false := by
  by_cases hd : truthy item.description = true
  · simp [hd]
  by_cases hsku : truthy item.sku = true
  · simp [hsku]
  by_cases hpos : truthy item.position = true
  · simp [hpos]
  exfalso
  have hd' : truthy item.description = false := by
    revert hd
    cases truthy item.description <;> simp
  have hsku' : truthy item.sku = false := by
    revert hsku
    cases truthy item.sku <;> simp
  have hpos' : truthy item.position = false := by
    revert hpos
    cases truthy item.position <;> simp
  have hddata := falsy_getD_data hd'
  have hsdata := falsy_getD_data hsku'
  have hbf : backfillSku item = item := by
    rw [backfillSku, hddata]
    simp [startsWithL, List.isPrefixOf]
  rw [hbf, isShippingItem] at hs
  simp +decide [hddata, hsdata, hpos', hasWordOccur, hasWordOccur.go, isSubstr,
    freightKeywords] at hs

/-- C8: every raw row classified as shipping/freight by `_process_item`
(on the item as seen by the classifier, after SKU back-fill) is excluded
from the emitted items; the shipping fee is left exactly unchanged when
the row's total is absent, unparseable or parses to a value `≤ 0`, and in
the one remaining case — a strictly positive parseable total — it becomes
the printed sum of the current fee and that total, a genuinely different
value.  The current fee is assumed parseable (it always is: the engine
itself writes it as `str(float)`), and the vendor is not Shaker Store (so
the row is not intercepted by the multi-line cache first). -/
theorem shipping_row_c8 (cfg : ParserConfig) (pend : Option Item) (fee : Option String)
    (item : Item) (qf : ℚ)
    (hv : ¬ cfg.vendor.name = "Shaker Store")
    (hf : pyFloatD fee = some qf)
    (hs : isShippingItem (backfillSku item) = true) :
    (processItem cfg ⟨pend, fee⟩ item).2 = none ∧
    ((processItem cfg ⟨pend, fee⟩ item).1.shipping_fee = fee ↔
      ¬ ∃ qt, pyFloatD (backfillSku item).total = some qt ∧ 0 < qt) ∧
    (∀ qt, pyFloatD (backfillSku item).total = some qt → 0 < qt →
      (processItem cfg ⟨pend, fee⟩ item).1.shipping_fee = some (pyStrFloat (qf + qt))) := by
  have hcond := isShippingItem_identity hs
  have hpi : processItem cfg ⟨pend, fee⟩ item =
      (⟨pend, shipFeeUpdate fee (backfillSku item).total⟩, none) := by
    have hstep : shakerStep cfg pend item = Sum.inr (pend, item) := by
      rw [shakerStep.eq_def]
      simp only [hv, if_false]
    rw [processItem, hstep]
    simp only [processMain, hcond, Bool.false_eq_true, if_false, hs, if_true]
  rw [hpi]
  refine ⟨rfl, ?_, ?_⟩
  · rcases htot : pyFloatD (backfillSku item).total with _ | qt
    · simp [shipFeeUpdate, htot]
    · by_cases hqt : 0 < qt
      · simp only [shipFeeUpdate, htot, hqt, if_true, hf]
        constructor
        · intro heq
          exfalso
          obtain ⟨j1, hj1⟩ := pyFloatD_den_dvd hf
          obtain ⟨j2, hj2⟩ := pyFloatD_den_dvd htot
          have hdd : (qf + qt).den ∣ 10 ^ (j1 + j2) :=
            dvd_trans (Rat.add_den_dvd qf qt)
              (by rw [pow_add]; exact Nat.mul_dvd_mul hj1 hj2)
          have hrt : pyFloat (pyStrFloat (qf + qt)) = some (qf + qt) := pyFloat_pyStrFloat hdd
          rw [← heq] at hf
          simp only [pyFloatD] at hf
          rw [hrt] at hf
          have hcontra : qf + qt = qf := Option.some_injective _ hf
          linarith
        · intro hno
          exact absurd ⟨qt, rfl, hqt⟩ hno
      · simp [shipFeeUpdate, htot, hqt]
  · intro qt htot hqt
    simp only [shipFeeUpdate, htot, hqt, if_true, hf]

/-- C8 witness: the theorem applied to the shipping row `{sku:
"SHIPPING", total: "12.50"}` under a generic vendor with an empty fee. -/
theorem shipping_row_c8_witness :
    (processItem { vendor := { name := "Acme" } } ⟨none, none⟩
        { sku := some "SHIPPING", total := some "12.50" }).2 = none ∧
    ((processItem { vendor := { name := "Acme" } } ⟨none, none⟩
        { sku := some "SHIPPING", total := some "12.50" }).1.shipping_fee = none ↔
      ¬ ∃ qt, pyFloatD (backfillSku
          { sku := some "SHIPPING", total := some "12.50" }).total = some qt ∧ 0 < qt) ∧
    (∀ qt, pyFloatD (backfillSku
          { sku := some "SHIPPING", total := some "12.50" }).total = some qt → 0 < qt →
      (processItem { vendor := { name := "Acme" } } ⟨none, none⟩
          { sku := some "SHIPPING", total := some "12.50" }).1.shipping_fee =
        some (pyStrFloat (0 + qt))) :=
  shipping_row_c8 { vendor := { name := "Acme" } } none none
    { sku := some "SHIPPING", total := some "12.50" } 0
    (by decide) rfl (by decide)


/-! ## Claim C1: the comma disambiguation rule of parse_number -/

theorem isDigit_ne {c x : Char} (h : c.isDigit = true) (hx : x.isDigit = false) : c ≠ x := by
  intro heq
  rw [heq, hx] at h
  exact absurd h (by decide)

theorem isDigit_not_invisible {c : Char} (h : c.isDigit = true) : isInvisible c = false := by
  by_contra hc
  have hs : isInvisible c = true := by
    revert hc
    cases isInvisible c <;> simp
  simp only [isInvisible, Bool.or_eq_true, decide_eq_true_eq] at hs
  rcases hs with (h1 | h1) | h1 <;> (subst h1; exact absurd h (by decide))

theorem map_eq_self_of {f : Char → Char} :
    ∀ {l : List Char}, (∀ c ∈ l, f c = c) → l.map f = l
  | [], _ => rfl
  | c :: rest, h => by
    rw [List.map_cons, h c (List.mem_cons_self c rest),
      map_eq_self_of (fun x hx => h x (List.mem_cons_of_mem c hx))]

theorem removeEUR_eq_self : ∀ (l : List Char), 'E' ∉ l → removeEUR l = l := by
  intro l
  induction l with
  | nil => intro _; rfl
  | cons c rest ih =>
    intro h
    have hc : c ≠ 'E' := fun hh => h (hh ▸ List.mem_cons_self _ _)
    have ht : 'E' ∉ rest := fun hh => h (List.mem_cons_of_mem _ hh)
    rw [removeEUR.eq_def]
    split
    · rename_i r heq
      injection heq with hch _
      exact absurd hch hc
    · rename_i x c2 rest2 hno heq
      injection heq with hch hrest
      subst hch
      subst hrest
      rw [ih ht]
    · rename_i heq
      exact absurd heq (by simp)


theorem pyIsSpace_ne_space {c : Char} (h : pyIsSpace c = false) : ¬c = ' ' := by
  intro heq
  subst heq
  exact absurd h (by decide)

theorem comma_not_space : pyIsSpace ',' = false := by decide

/-- C1 as the code has it: for a non-empty digit string, one comma and a
non-empty digit string, `parse_number` reads the comma as a decimal
separator exactly when the part after the comma is not three characters
long, and as a thousands separator when it is exactly three characters —
there is no two-digit rule and no special case for a leading `0,`. -/
theorem parse_number_comma_rule (d1 d2 : List Char)
    (h1 : d1 ≠ []) (h2 : d2 ≠ [])
    (hd1 : ∀ c ∈ d1, c.isDigit = true) (hd2 : ∀ c ∈ d2, c.isDigit = true) :
    parse_number (String.mk (d1 ++ ',' :: d2)) =
      if d2.length = 3 then (natOfDigits (d1 ++ d2) : ℚ)
      else (natOfDigits d1 : ℚ) + natOfDigits d2 / 10 ^ d2.length := by
  have hmem : ∀ c ∈ d1 ++ ',' :: d2, c.isDigit = true ∨ c = ',' := by
    intro c hcm
    rcases List.mem_append.mp hcm with hcm | hcm
    · exact Or.inl (hd1 c hcm)
    · rcases List.mem_cons.mp hcm with hcm | hcm
      · exact Or.inr hcm
      · exact Or.inl (hd2 c hcm)
  have hnm : ∀ x : Char, x.isDigit = false → ¬x = ',' → x ∉ d1 ++ ',' :: d2 := by
    intro x hx hxc hxm
    rcases hmem x hxm with hh | hh
    · rw [hx] at hh
      exact absurd hh (by decide)
    · exact hxc hh
  have hcomma_mem : ',' ∈ d1 ++ ',' :: d2 :=
    List.mem_append_right _ (List.mem_cons_self _ _)
  have hdotnm : '.' ∉ d1 ++ ',' :: d2 := hnm '.' (by decide) (by decide)
  have hnd1 : ',' ∉ d1 := fun hmm => absurd (hd1 _ hmm) (by decide)
  have hnd2 : ',' ∉ d2 := fun hmm => absurd (hd2 _ hmm) (by decide)
  have hspace : ∀ c ∈ d1 ++ ',' :: d2, pyIsSpace c = false := by
    intro c hcm
    rcases hmem c hcm with hh | hh
    · exact isDigit_not_space hh
    · rw [hh]
      exact comma_not_space
  have hfilters : stripCurrency (d1 ++ ',' :: d2) = d1 ++ ',' :: d2 := by
    have f1 : (d1 ++ ',' :: d2).filter (fun c => c ≠ '€') = d1 ++ ',' :: d2 :=
      List.filter_eq_self.mpr (fun a ha => by
        rcases hmem a ha with hh | hh
        · exact decide_eq_true (isDigit_ne hh (by decide))
        · rw [hh]
          decide)
    have hE : 'E' ∉ d1 ++ ',' :: d2 := hnm 'E' (by decide) (by decide)
    have f2 : (d1 ++ ',' :: d2).filter (fun c => c ≠ '$') = d1 ++ ',' :: d2 :=
      List.filter_eq_self.mpr (fun a ha => by
        rcases hmem a ha with hh | hh
        · exact decide_eq_true (isDigit_ne hh (by decide))
        · rw [hh]
          decide)
    have f3 : (d1 ++ ',' :: d2).filter (fun c => c ≠ '£') = d1 ++ ',' :: d2 :=
      List.filter_eq_self.mpr (fun a ha => by
        rcases hmem a ha with hh | hh
        · exact decide_eq_true (isDigit_ne hh (by decide))
        · rw [hh]
          decide)
    rw [stripCurrency, f1, removeEUR_eq_self _ hE, f2, f3, pyStrip_eq_self hspace]
  have hinv : (d1 ++ ',' :: d2).filter (fun c => !isInvisible c) = d1 ++ ',' :: d2 :=
    List.filter_eq_self.mpr (fun a ha => by
      rcases hmem a ha with hh | hh
      · rw [isDigit_not_invisible hh]
        rfl
      · rw [hh]
        decide)
  have hclean : cleanNumberMatch (d1 ++ ',' :: d2) = false := by
    obtain ⟨c, d1t, rfl⟩ := List.exists_cons_of_ne_nil h1
    have hcdig : c.isDigit = true := hd1 c (List.mem_cons_self _ _)
    have hhead : ¬((c :: d1t ++ ',' :: d2).head? = some '-') := by
      rw [List.cons_append, List.head?_cons]
      intro hh
      exact absurd (Option.some_injective _ hh) (isDigit_ne hcdig (by decide))
    rw [cleanNumberMatch]
    rw [if_neg hhead]
    rw [splitChar_of_not_mem hdotnm]
    have hall : (c :: d1t ++ ',' :: d2).all Char.isDigit = false := by
      refine Bool.eq_false_iff.mpr (fun hta => ?_)
      have := List.all_eq_true.mp hta ',' hcomma_mem
      exact absurd this (by decide)
    simp [hall]
  have hcont1 : (d1 ++ ',' :: d2).contains ',' = true := by
    simpa using hcomma_mem
  have hcont2 : (d1 ++ ',' :: d2).contains '.' = false := by
    simpa using hdotnm
  have hsplit : splitChar ',' (d1 ++ ',' :: d2) = [d1, d2] := by
    rw [splitChar_append d2 hnd1, splitChar_of_not_mem hnd2]
  have hmap : (d1 ++ ',' :: d2).map commaToDot = d1 ++ '.' :: d2 := by
    rw [List.map_append, List.map_cons]
    rw [map_eq_self_of (fun c hcm2 => by
      rw [commaToDot]
      exact if_neg (isDigit_ne (hd1 c hcm2) (by decide)))]
    rw [map_eq_self_of (fun c hcm2 => by
      rw [commaToDot]
      exact if_neg (isDigit_ne (hd2 c hcm2) (by decide)))]
    rfl
  have hfil : (d1 ++ ',' :: d2).filter (fun c => c ≠ ',') = d1 ++ d2 := by
    have hs1 : ∀ l : List Char, (∀ c ∈ l, c.isDigit = true) →
        l.filter (fun c => !decide (c = ',')) = l := fun l hl =>
      List.filter_eq_self.mpr (fun a ha => by
        simp [@isDigit_ne a ',' (hl a ha) (by decide)])
    simp [List.filter_append, List.filter_cons, hs1 d1 hd1, hs1 d2 hd2]
  have hkeep_dec : (d1 ++ '.' :: d2).filter (fun c => c.isDigit || c = '.' || c = '-') =
      d1 ++ '.' :: d2 :=
    List.filter_eq_self.mpr (fun a ha => by
      rcases List.mem_append.mp ha with ha | ha
      · simp [hd1 a ha]
      · rcases List.mem_cons.mp ha with ha | ha
        · rw [ha]
          decide
        · simp [hd2 a ha])
  have hkeep_thou : (d1 ++ d2).filter (fun c => c.isDigit || c = '.' || c = '-') = d1 ++ d2 :=
    List.filter_eq_self.mpr (fun a ha => by
      rcases List.mem_append.mp ha with ha | ha
      · simp [hd1 a ha]
      · simp [hd2 a ha])
  have hns_dec : ∀ x ∈ d1 ++ '.' :: d2, pyIsSpace x = false := by
    intro x hx
    rcases List.mem_append.mp hx with hx | hx
    · exact isDigit_not_space (hd1 x hx)
    · rcases List.mem_cons.mp hx with hx | hx
      · rw [hx]
        decide
      · exact isDigit_not_space (hd2 x hx)
  have hns_thou : ∀ x ∈ d1 ++ d2, pyIsSpace x = false := by
    intro x hx
    rcases List.mem_append.mp hx with hx | hx
    · exact isDigit_not_space (hd1 x hx)
    · exact isDigit_not_space (hd2 x hx)
  have hfloat_dec : pyFloatL (d1 ++ '.' :: d2) =
      some ((natOfDigits d1 : ℚ) + natOfDigits d2 / 10 ^ d2.length) := by
    obtain ⟨c, t, rfl⟩ := List.exists_cons_of_ne_nil h1
    rw [List.cons_append,
      pyFloatL_digitStart (hd1 c (List.mem_cons_self _ _)) (by
        rw [← List.cons_append]
        exact hns_dec),
      ← List.cons_append]
    exact parseUnsigned_point h1 hd1 hd2
  have hfloat_thou : pyFloatL (d1 ++ d2) = some ((natOfDigits (d1 ++ d2) : ℚ)) := by
    obtain ⟨c, t, rfl⟩ := List.exists_cons_of_ne_nil h1
    rw [List.cons_append,
      pyFloatL_digitStart (hd1 c (List.mem_cons_self _ _)) (by
        rw [← List.cons_append]
        exact hns_thou),
      ← List.cons_append]
    exact parseUnsigned_digits (by simp) (fun c2 hc2 => by
      rcases List.mem_append.mp hc2 with hc2 | hc2
      · exact hd1 c2 hc2
      · exact hd2 c2 hc2)
  have hfild2 : d2.filter Char.isDigit = d2 :=
    List.filter_eq_self.mpr (fun a ha => hd2 a ha)
  have hnospace : (d1 ++ ',' :: d2).filter (fun c => c ≠ ' ') = d1 ++ ',' :: d2 :=
    List.filter_eq_self.mpr (fun a ha =>
      decide_eq_true (pyIsSpace_ne_space (hspace a ha)))
  have hemp : (d1 ++ ',' :: d2).isEmpty = false := by
    rcases d1 with _ | ⟨c, t⟩
    · rfl
    · rfl
  show parseNumberL (d1 ++ ',' :: d2) = _
  rw [parseNumberL]
  simp only [hemp, Bool.false_eq_true, if_false, hfilters, hinv, hclean, hcont1, hcont2,
    Bool.true_and, Bool.and_false, Bool.false_and, Bool.and_true, Bool.not_false, hsplit]
  by_cases hlen : d2.length = 3
  · simp only [hlen, ne_eq, not_true_eq_false, if_false, if_true, ite_true, ite_false,
      decide_eq_true_eq, hfil]
    simp only [hkeep_thou, hfloat_thou, hfild2, hlen]
    simp
  · simp only [ne_eq, decide_eq_true_eq]
    simp only [ne_eq] at hnospace
    rw [if_pos trivial, if_pos hlen, hmap, hkeep_dec]
    simp only [hfloat_dec]
    rw [if_neg hlen]
    by_cases hbig :
        (100000 : ℚ) < (natOfDigits d1 : ℚ) + (natOfDigits d2 : ℚ) / 10 ^ d2.length
    · rw [if_pos hbig]
      by_cases hlen2 : d2.length = 2
      · rw [hfild2, if_pos hlen2, hnospace, hmap, hkeep_dec]
        simp only [hfloat_dec]
      · rw [hfild2, if_neg hlen2]
    · rw [if_neg hbig]

/-- C1 counterexample: `parse_number("2,9000")` treats the comma as a
decimal separator (four digits follow it, which is not exactly three) and
returns `2.9`, not the `29000` a thousands-separator reading — as the
claim asserts for anything but exactly two digits — would give. -/
theorem parse_number_comma_rule_counterexample :
    parse_number "2,9000" = 29 / 10 ∧ (29 / 10 : ℚ) ≠ 29000 := by
  constructor
  · simp +decide [parse_number, parseNumberL, stripCurrency, removeEUR, pyStrip, pyIsSpace,
      isInvisible, cleanNumberMatch, splitChar, lastSepIsComma, commaToDot, pyFloatL,
      parseUnsigned, natOfDigits, digitVal]
    norm_num
  · norm_num

/-- C1 witness: the amended rule applied to `"2,9000"` (four characters
after the comma, hence decimal) and to `"0,5"` (one character, hence
decimal as well). -/
theorem parse_number_comma_rule_witness :
    (parse_number (String.mk (['2'] ++ ',' :: ['9', '0', '0', '0'])) =
      if (['9', '0', '0', '0'] : List Char).length = 3
      then (natOfDigits (['2'] ++ ['9', '0', '0', '0']) : ℚ)
      else (natOfDigits ['2'] : ℚ)
        + natOfDigits ['9', '0', '0', '0'] / 10 ^ (['9', '0', '0', '0'] : List Char).length) ∧
    (parse_number (String.mk (['0'] ++ ',' :: ['5'])) =
      if (['5'] : List Char).length = 3 then (natOfDigits (['0'] ++ ['5']) : ℚ)
      else (natOfDigits ['0'] : ℚ) + natOfDigits ['5'] / 10 ^ (['5'] : List Char).length) :=
  ⟨parse_number_comma_rule ['2'] ['9', '0', '0', '0'] (by decide) (by decide)
      (by decide) (by decide),
   parse_number_comma_rule ['0'] ['5'] (by decide) (by decide) (by decide) (by decide)⟩

end Renta
